import Mathlib

/-!
Shallow embedding of the raptor-framework view-rendering subsystem
(`src/views/templateEngine.ts`: `SimpleTemplateEngine`, `HelpersManager`;
`src/views/raptorEngine.ts`: `RaptorEngine`) together with proofs about
the template pipeline, the helper registry and the layout composer.

Modelling conventions:
* JavaScript runtime values flowing through a rendering context are the
  inductive `Value`; the JavaScript `undefined` is represented by `none`
  in `Option Value` (called `JsVal`), while the explicit `null` is the
  constructor `Value.vnull`, keeping the two distinct as the source does.
* JavaScript numbers are restricted to integer numerals: no template in
  the repository nor in its test-suite uses fractional or exponent
  literals, and none of the properties proved here depends on them.
* The regex-cascade stages of the engine are embedded as character
  scanners that reproduce the exact leftmost-match/backtracking
  behaviour of each regular expression used by the source.
* Strings are processed as `List Char`; each stage gets a `String`
  wrapper carrying the source name.
-/

namespace Raptor

/-- A JavaScript value stored in a rendering context (`TemplateContext`
is `Record<string, unknown>` in the source).  `vnull` is the explicit
`null`; the absent value `undefined` is modelled as `Option.none`
one level up. -/
inductive Value : Type where
  | vnull : Value
  | vbool : Bool → Value
  | vnum : Int → Value
  | vstr : String → Value
  | varr : List Value → Value
  | vobj : List (String × Value) → Value

/-- A JavaScript value that may also be `undefined` (`none`). -/
abbrev JsVal := Option Value

/-- The rendering context: `TemplateContext = Record<string, unknown>`. -/
abbrev TemplateContext := List (String × Value)

/-- First binding of a key in an object literal (JavaScript object
property lookup; keys are unique in practice, first match wins). -/
def objLookup (fields : List (String × Value)) (key : String) : JsVal :=
  match fields with
  | [] => none
  | (k, v) :: rest => if k = key then some v else objLookup rest key

/-- Decimal value of a digit run. -/
def digitsToNat (ds : List Char) : Nat :=
  ds.foldl (fun acc c => acc * 10 + (c.toNat - '0'.toNat)) 0

/-- A canonical array index: a non-empty all-digit key. -/
def arrayIndex? (s : List Char) : Option Nat :=
  if s ≠ [] ∧ s.all Char.isDigit then some (digitsToNat s) else none

/-- JavaScript `typeof value === "object" && part in value` followed by
`value[part]`: property access on objects, and index/`length` access on
arrays (arrays are objects in JavaScript).  Primitives and `null` have
no own properties reachable this way. -/
def propAccess (v : Value) (key : String) : JsVal :=
  match v with
  | .vobj fields => objLookup fields key
  | .varr xs =>
      if key = "length" then some (.vnum xs.length)
      else match arrayIndex? key.data with
        | some i => xs.get? i
        | none => none
  | _ => none

/-- The loop of `SimpleTemplateEngine.resolveValue`: walk the
dot-separated parts, returning `undefined` as soon as the current value
is `undefined`/`null` or the part is not a property. -/
def resolveParts : List String → JsVal → JsVal
  | [], v => v
  | _ :: _, none => none
  | _ :: _, some .vnull => none
  | p :: ps, some v =>
      match propAccess v p with
      | some w => resolveParts ps (some w)
      | none => none

/-- Models `path.split(".")` (JavaScript `String.prototype.split` with the
one-character separator `"."`): adjacent separators and boundary
separators produce empty pieces, and the empty string splits to
`[""]`. -/
def splitDotAux : List Char → List Char → List (List Char)
  | [], acc => [acc.reverse]
  | '.' :: rest, acc => acc.reverse :: splitDotAux rest []
  | c :: rest, acc => splitDotAux rest (c :: acc)

/-- Models `String.prototype.split(".")`. -/
def jsSplitDot (s : String) : List String :=
  (splitDotAux s.data []).map String.mk

/-- Models `SimpleTemplateEngine.resolveValue`: resolve `"a.b.c"` against the
context object. -/
def resolveValue (path : String) (context : TemplateContext) : JsVal :=
  resolveParts (jsSplitDot path) (some (.vobj context))

/-- Models `SimpleTemplateEngine.isTruthy`: `false`, `null`, `undefined`, the
empty array and the empty string are falsy; everything else is truthy. -/
def isTruthy : JsVal → Bool
  | none => false
  | some .vnull => false
  | some (.vbool false) => false
  | some (.varr []) => false
  | some (.vstr "") => false
  | some _ => true

/-- JavaScript `String(·)` coercion for the values of this model.
Array stringification is `Array.prototype.join(",")`, where `null`
and `undefined` elements print as the empty string. -/
def jsString : Value → String
  | .vnull => "null"
  | .vbool true => "true"
  | .vbool false => "false"
  | .vnum n => toString n
  | .vstr s => s
  | .vobj _ => "[object Object]"
  | .varr xs => jsArrJoin xs
where
  /-- Models `Array.prototype.toString`, i.e. `join(",")`. -/
  jsArrJoin : List Value → String
    | [] => ""
    | [.vnull] => ""
    | [v] => jsString v
    | .vnull :: v :: vs => "," ++ jsArrJoin (v :: vs)
    | u :: v :: vs => jsString u ++ "," ++ jsArrJoin (v :: vs)

/-- The pervasive source idiom `String(value ?? "")`: `undefined` and
`null` print as the empty string. -/
def jsStringOrEmpty : JsVal → String
  | none => ""
  | some .vnull => ""
  | some v => jsString v

/-- JavaScript `String(·)` on a possibly-`undefined` value (no `??`
guard): `undefined` prints as the literal text `undefined`. -/
def jsStringRaw : JsVal → String
  | none => "undefined"
  | some v => jsString v

/-- The escape table of `SimpleTemplateEngine.escapeHtml`, one character
at a time. -/
def escapeChar (c : Char) : String :=
  if c = '&' then "&amp;"
  else if c = '<' then "&lt;"
  else if c = '>' then "&gt;"
  else if c = '"' then "&quot;"
  else if c = '\'' then "&#039;"
  else String.singleton c

/-- Models `SimpleTemplateEngine.escapeHtml`: replace every occurrence of
`&ampersand, <, >, ", '` by its HTML entity. -/
def escapeHtml (text : String) : String :=
  String.join (text.data.map escapeChar)

/-- Models `\s` of the source regexes and of JavaScript's string trimming (the
ASCII part, which is all the templates of this repository use). -/
def isWsChar (c : Char) : Bool :=
  c = ' ' || c = '\t' || c = '\n' || c = '\r'

/-- JavaScript whitespace trimming (`String.prototype.trim`, and the
implicit trim of `Number(·)`). -/
def jsTrim (s : List Char) : List Char :=
  ((s.dropWhile isWsChar).reverse.dropWhile isWsChar).reverse

/-- JavaScript `Number(·)` on a token, restricted to integer numerals
(see the module conventions): the empty/whitespace-only string coerces
to `0`, an optionally signed digit run to its value, anything else to
`NaN` (`none`). -/
def jsNumber? (s : List Char) : Option Int :=
  match jsTrim s with
  | [] => some 0
  | '-' :: ds =>
      if ds ≠ [] ∧ ds.all Char.isDigit then some (-(digitsToNat ds : Int)) else none
  | '+' :: ds =>
      if ds ≠ [] ∧ ds.all Char.isDigit then some (digitsToNat ds : Int) else none
  | ds => if ds.all Char.isDigit then some (digitsToNat ds : Int) else none

/-! ## Character-level scanning primitives

The engine's stages are chained `String.prototype.replace` calls with
global regexes.  Each regex is embedded as a deterministic matcher on
`List Char` that reproduces its leftmost-match behaviour, and a generic
driver `scanChars` that mirrors a global replace: try the matcher at
every position, emit replacements, never rescan emitted text. -/

/-- The regex class `[a-zA-Z0-9_]`. -/
def isNameChar (c : Char) : Bool :=
  c.isAlpha || c.isDigit || c = '_'

/-- The regex class `[a-zA-Z0-9_.]` (context paths). -/
def isPathChar (c : Char) : Bool :=
  isNameChar c || c = '.'

/-- The regex class `[a-zA-Z0-9/_-]` (partial names). -/
def isPartialNameChar (c : Char) : Bool :=
  c.isAlpha || c.isDigit || c = '/' || c = '_' || c = '-'

/-- Strip a literal off the front of the input, or fail. -/
def dropLit : List Char → List Char → Option (List Char)
  | [], s => some s
  | _ :: _, [] => none
  | a :: d, c :: s => if c = a then dropLit d s else none

/-- Split at the first occurrence of a literal pattern: `some (pre,
post)` with the input equal to `pre ++ pat ++ post` and no occurrence of
`pat` starting inside `pre`. -/
def splitFirst (pat : List Char) : List Char → Option (List Char × List Char)
  | [] =>
      match dropLit pat [] with
      | some rest => some ([], rest)
      | none => none
  | c :: cs =>
      match dropLit pat (c :: cs) with
      | some rest => some ([], rest)
      | none =>
          match splitFirst pat cs with
          | some (pre, post) => some (c :: pre, post)
          | none => none

/-- Models the `GetSubstitution` expansion JavaScript applies to the
replacement string of `String.prototype.replace` when the pattern is a
plain string (so there are no capture groups): `$$` yields `$`, `$&`
the matched text, `$` followed by a backtick the text before the match,
`$'` the text after it; every other `$`-sequence (including a trailing
lone `$` and `$n`, since there are no captures) stays literal. -/
def getSubstitution (matched pre post : List Char) : List Char → List Char
  | [] => []
  | [c] => [c]
  | c :: d :: rest =>
      if c = '$' then
        if d = '$' then '$' :: getSubstitution matched pre post rest
        else if d = '&' then matched ++ getSubstitution matched pre post rest
        else if d = '\x60' then pre ++ getSubstitution matched pre post rest
        else if d = '\'' then post ++ getSubstitution matched pre post rest
        else c :: getSubstitution matched pre post (d :: rest)
      else c :: getSubstitution matched pre post (d :: rest)

/-- Models `String.prototype.replace` with a plain-string pattern:
replace the first occurrence only, expanding the `$`-substitution
patterns of the replacement string against the match (for a string
pattern the matched text is the pattern itself); if the pattern does
not occur, return the string unchanged. -/
def replaceFirst (s pat repl : String) : String :=
  match splitFirst pat.data s.data with
  | some (pre, post) =>
      String.mk (pre ++ getSubstitution pat.data pre post repl.data ++ post)
  | none => s

/-- A global-replace driver: at each position try the matcher; on a
match emit the replacement and continue after the matched text, else
copy one character.  The fuel argument (instantiated with the input
length, one unit per scanning step) keeps the recursion structural;
every matcher used consumes at least one character, so the fuel is
never exhausted. -/
def scanAux (f : List Char → Option (List Char × List Char)) : Nat → List Char → List Char
  | 0, rest => rest
  | _ + 1, [] => []
  | n + 1, c :: cs =>
      match f (c :: cs) with
      | some (r, rest) => r ++ scanAux f n rest
      | none => c :: scanAux f n cs

/-- Run a matcher as a global replace over a whole string. -/
def scanChars (f : List Char → Option (List Char × List Char)) (s : List Char) : List Char :=
  scanAux f s.length s

/-! ## Marker literals (braces written as `\x7b`/`\x7d`) -/

/-- Models `{{` -/
def oo : List Char := "\x7b\x7b".data
/-- Models `}}` -/
def cc : List Char := "\x7d\x7d".data
/-- Models `{{{` -/
def ooo : List Char := "\x7b\x7b\x7b".data
/-- Models `}}}` -/
def ccc : List Char := "\x7d\x7d\x7d".data
/-- Models `{{#if` -/
def ifOpenTag : List Char := "\x7b\x7b#if".data
/-- Models `{{else}}` -/
def elseTag : List Char := "\x7b\x7belse\x7d\x7d".data
/-- Models `{{/if}}` -/
def ifCloseTag : List Char := "\x7b\x7b/if\x7d\x7d".data
/-- Models `{{#each` -/
def eachOpenTag : List Char := "\x7b\x7b#each".data
/-- Models `{{/each}}` -/
def eachCloseTag : List Char := "\x7b\x7b/each\x7d\x7d".data
/-- Models `{{>` -/
def partialOpenTag : List Char := "\x7b\x7b>".data

/-! ## Interpolation stage -/

/-- Matcher for `open \s* path \s* close` with `path` drawn from
`[a-zA-Z0-9_.]+` — the shape of both interpolation regexes.  All
character classes involved are disjoint, so the regex is
deterministic. -/
def matchInterpAt (openTag closeTag : List Char) (s : List Char) :
    Option (String × List Char) :=
  match dropLit openTag s with
  | none => none
  | some s1 =>
      let s2 := s1.dropWhile isWsChar
      let path := s2.takeWhile isPathChar
      if path.isEmpty then none
      else
        let s3 := (s2.dropWhile isPathChar).dropWhile isWsChar
        match dropLit closeTag s3 with
        | none => none
        | some rest => some (String.mk path, rest)

/-- One match of `/\{\{\{\s*([a-zA-Z0-9_.]+)\s*\}\}\}/g` replaced by
`String(value ?? "")` (raw, unescaped). -/
def rawInterpStep (context : TemplateContext) (s : List Char) :
    Option (List Char × List Char) :=
  (matchInterpAt ooo ccc s).map fun p =>
    ((jsStringOrEmpty (resolveValue p.1 context)).data, p.2)

/-- One match of `/\{\{\s*([a-zA-Z0-9_.]+)\s*\}\}/g` replaced by
`escapeHtml(String(value ?? ""))`. -/
def escInterpStep (context : TemplateContext) (s : List Char) :
    Option (List Char × List Char) :=
  (matchInterpAt oo cc s).map fun p =>
    ((escapeHtml (jsStringOrEmpty (resolveValue p.1 context))).data, p.2)

/-- Models `SimpleTemplateEngine.processInterpolation`: the raw
(`{{{ ... }}}`) pass first, then the escaped (`{{ ... }}`) pass over
its output. -/
def processInterpolation (template : String) (context : TemplateContext) : String :=
  String.mk (scanChars (escInterpStep context)
    (scanChars (rawInterpStep context) template.data))

/-! ## Conditional stage -/

/-- The lazy body search of
`/\{\{#if\s+([a-zA-Z0-9_.]+)\s*\}\}([\s\S]*?)(?:\{\{else\}\}([\s\S]*?))?\{\{\/if\}\}/`:
grow the truthy branch until the first `{{else}}` or `{{/if}}`; on
`{{else}}`, the falsy branch runs (lazily) to the first following
`{{/if}}`. -/
def findIfBody : List Char → Option (List Char × Option (List Char) × List Char)
  | [] => none
  | c :: cs =>
      match dropLit elseTag (c :: cs) with
      | some afterElse =>
          match splitFirst ifCloseTag afterElse with
          | some (falsy, rest) => some ([], some falsy, rest)
          | none => none
      | none =>
          match dropLit ifCloseTag (c :: cs) with
          | some rest => some ([], none, rest)
          | none =>
              match findIfBody cs with
              | some (t, f, r) => some (c :: t, f, r)
              | none => none

/-- One match of the `#if` regex, replaced by the truthy or falsy
branch (`falsyContent` defaults to the empty string when the `else`
group is absent). -/
def matchIfAt (context : TemplateContext) (s : List Char) :
    Option (List Char × List Char) :=
  match dropLit ifOpenTag s with
  | none => none
  | some s1 =>
      if (s1.takeWhile isWsChar).isEmpty then none
      else
        let s2 := s1.dropWhile isWsChar
        let condition := s2.takeWhile isPathChar
        if condition.isEmpty then none
        else
          let s3 := (s2.dropWhile isPathChar).dropWhile isWsChar
          match dropLit cc s3 with
          | none => none
          | some s4 =>
              match findIfBody s4 with
              | none => none
              | some (truthyContent, falsyContent, rest) =>
                  let value := resolveValue (String.mk condition) context
                  some (if isTruthy value then truthyContent
                        else falsyContent.getD [], rest)

/-- Models `SimpleTemplateEngine.processIf`. -/
def processIf (template : String) (context : TemplateContext) : String :=
  String.mk (scanChars (matchIfAt context) template.data)

/-! ## Iteration stage -/

/-- Models `SimpleTemplateEngine.getPropertyValue`: a property of an unknown
value, `undefined` for `null`/`undefined`/primitives and absent keys. -/
def getPropertyValue (obj : Value) (prop : String) : JsVal :=
  propAccess obj prop

/-- One match of `/\{\{\s*this\.([a-zA-Z0-9_]+)\s*\}\}/g`, replaced by
`escapeHtml(String(getPropertyValue(item, prop) ?? ""))`. -/
def matchThisPropAt (item : Value) (s : List Char) :
    Option (List Char × List Char) :=
  match dropLit oo s with
  | none => none
  | some s1 =>
      match dropLit "this.".data (s1.dropWhile isWsChar) with
      | none => none
      | some s2 =>
          let prop := s2.takeWhile isNameChar
          if prop.isEmpty then none
          else
            match dropLit cc ((s2.dropWhile isNameChar).dropWhile isWsChar) with
            | none => none
            | some rest =>
                some ((escapeHtml (jsStringOrEmpty
                  (getPropertyValue item (String.mk prop)))).data, rest)

/-- One match of `{{ \s* keyword \s* }}` replaced by a fixed string —
the shape of the `{{this}}`, `{{@index}}`, `{{@first}}`, `{{@last}}`
replacement regexes. -/
def matchKeywordAt (keyword repl : List Char) (s : List Char) :
    Option (List Char × List Char) :=
  match dropLit oo s with
  | none => none
  | some s1 =>
      match dropLit keyword (s1.dropWhile isWsChar) with
      | none => none
      | some s2 =>
          match dropLit cc (s2.dropWhile isWsChar) with
          | none => none
          | some rest => some (repl, rest)

/-- The per-element body substitution of
`SimpleTemplateEngine.processEach`, in source order: `{{this.prop}}`
(escaped property), `{{this}}` (escaped element), `{{@index}}`,
`{{@first}}`, `{{@last}}`.  No derived context is built; these are
direct textual replacements. -/
def eachSubst (content : List Char) (item : Value) (index len : Nat) : List Char :=
  let c1 := scanChars (matchThisPropAt item) content
  let c2 := scanChars (matchKeywordAt "this".data (escapeHtml (jsString item)).data) c1
  let c3 := scanChars (matchKeywordAt "@index".data (toString index).data) c2
  let c4 := scanChars (matchKeywordAt "@first".data
    (if index = 0 then "true".data else "false".data)) c3
  scanChars (matchKeywordAt "@last".data
    (if index = len - 1 then "true".data else "false".data)) c4

/-- Models `array.map((item, index) => ...)` over the element substitution,
then `join("")`. -/
def eachConcat (content : List Char) (xs : List Value) : List Char :=
  (((List.range xs.length).zip xs).map
    (fun p => eachSubst content p.2 p.1 xs.length)).flatten

/-- One match of
`/\{\{#each\s+([a-zA-Z0-9_.]+)\s*\}\}([\s\S]*?)\{\{\/each\}\}/g`:
a non-array value yields the empty string, an array the concatenated
per-element substitutions. -/
def matchEachAt (context : TemplateContext) (s : List Char) :
    Option (List Char × List Char) :=
  match dropLit eachOpenTag s with
  | none => none
  | some s1 =>
      if (s1.takeWhile isWsChar).isEmpty then none
      else
        let s2 := s1.dropWhile isWsChar
        let arrayPath := s2.takeWhile isPathChar
        if arrayPath.isEmpty then none
        else
          let s3 := (s2.dropWhile isPathChar).dropWhile isWsChar
          match dropLit cc s3 with
          | none => none
          | some s4 =>
              match splitFirst eachCloseTag s4 with
              | none => none
              | some (content, rest) =>
                  match resolveValue (String.mk arrayPath) context with
                  | some (.varr xs) => some (eachConcat content xs, rest)
                  | _ => some ([], rest)

/-- Models `SimpleTemplateEngine.processEach`. -/
def processEach (template : String) (context : TemplateContext) : String :=
  String.mk (scanChars (matchEachAt context) template.data)

/-! ## Helper stage and the helper registry -/

/-- Models `HelperFunction = (...args: unknown[]) => string`; a JavaScript
helper body may also throw, modelled by the `error` branch. -/
abbrev HelperFunction := List JsVal → Except String String

/-- The helper registry (`Map<string, HelperFunction>`). -/
abbrev Helpers := List (String × HelperFunction)

/-- First matching binding in an association list (used for `Map.get`
where insertion prepends, so the latest registration wins). -/
def lookupFirst {α : Type} : List (String × α) → String → Option α
  | [], _ => none
  | (k, v) :: rest, key => if k = key then some v else lookupFirst rest key

/-- Models `Map.set`: a later registration for the same name shadows the
earlier one (pure overwrite, no collision error). -/
def registerHelper (helpers : Helpers) (name : String) (fn : HelperFunction) : Helpers :=
  (name, fn) :: helpers

/-- The argument mapper of `SimpleTemplateEngine.processHelpers`:
quoted string → string literal; `!isNaN(Number(arg))` → number;
otherwise a context path resolved via `resolveValue`. -/
def convertHelperArg (context : TemplateContext) (arg : List Char) : JsVal :=
  if arg.head? = some '"' ∧ arg.getLast? = some '"' then
    some (.vstr (String.mk (arg.drop 1 |>.dropLast)))
  else
    match jsNumber? arg with
    | some n => some (.vnum n)
    | none => resolveValue (String.mk arg) context

/-- Models `argsString.split(/\s+/)`: pieces between maximal whitespace runs,
with an empty leading/trailing piece when the string starts/ends with
whitespace, exactly as `String.prototype.split` produces them.  Fuel is
the input length (each step past the first piece consumes at least one
separator character). -/
def splitWsAux : Nat → List Char → List (List Char)
  | 0, s => [s]
  | n + 1, s =>
      let tok := s.takeWhile (fun c => !isWsChar c)
      let rest := s.dropWhile (fun c => !isWsChar c)
      tok :: (if rest.isEmpty then [] else splitWsAux n (rest.dropWhile isWsChar))

/-- Models `String.prototype.split(/\s+/)`. -/
def splitWs (s : List Char) : List (List Char) :=
  splitWsAux s.length s

/-- Invoke a helper found for a marker: convert the whitespace-split
argument tokens, call the helper, and absorb a thrown error into the
empty string (`try/catch` with `console.error`).  An unregistered name
returns the matched text unchanged. -/
def helperInvoke (helpers : Helpers) (context : TemplateContext)
    (name matched argsChars : List Char) : List Char :=
  match lookupFirst helpers (String.mk name) with
  | none => matched
  | some helper =>
      let args := (splitWs argsChars).map (convertHelperArg context)
      match helper args with
      | .ok out => out.data
      | .error _ => []

/-- One match of `/\{\{([a-zA-Z0-9_]+)\s+([^}]+)\}\}/g`.  The name must
start immediately after `{{`; at least one whitespace character must
follow it; `[^}]+` greedily takes the run up to the next `}`.  When
that run is empty but the whitespace run has length ≥ 2, the regex
engine backtracks `\s+` by one character, which then satisfies
`[^}]+` — reproduced by the `ws.length ≥ 2` branch. -/
def matchHelperAt (helpers : Helpers) (context : TemplateContext) (s : List Char) :
    Option (List Char × List Char) :=
  match dropLit oo s with
  | none => none
  | some s1 =>
      let name := s1.takeWhile isNameChar
      if name.isEmpty then none
      else
        let s2 := s1.dropWhile isNameChar
        let ws := s2.takeWhile isWsChar
        if ws.isEmpty then none
        else
          let s3 := s2.dropWhile isWsChar
          let args := s3.takeWhile (· != '\x7d')
          if args.isEmpty then
            if 2 ≤ ws.length then
              match dropLit cc s3 with
              | none => none
              | some rest =>
                  some (helperInvoke helpers context name
                    (oo ++ name ++ ws ++ cc) (ws.drop (ws.length - 1)), rest)
            else none
          else
            match dropLit cc (s3.dropWhile (· != '\x7d')) with
            | none => none
            | some rest =>
                some (helperInvoke helpers context name
                  (oo ++ name ++ ws ++ args ++ cc) args, rest)

/-- Models `SimpleTemplateEngine.processHelpers`. -/
def processHelpers (helpers : Helpers) (template : String) (context : TemplateContext) : String :=
  String.mk (scanChars (matchHelperAt helpers context) template.data)

/-! ## Partials stage and the full pipeline -/

/-- The file-read collaborator: UTF-8 text for a path, or a read
failure (`none`). -/
abbrev FileSystem := String → Option String

/-- Models `join(viewsDirectory, "partials", name + ".html")`. -/
def partialPath (dir name : String) : String :=
  dir ++ "/partials/" ++ name ++ ".html"

/-- One match of `/\{\{>\s*([a-zA-Z0-9/_-]+)\s*\}\}/g`, returning the
full matched text, the partial name and the rest. -/
def matchPartialAt (s : List Char) : Option (List Char × List Char × List Char) :=
  match dropLit partialOpenTag s with
  | none => none
  | some s1 =>
      let ws1 := s1.takeWhile isWsChar
      let s2 := s1.dropWhile isWsChar
      let name := s2.takeWhile isPartialNameChar
      if name.isEmpty then none
      else
        let ws2 := (s2.dropWhile isPartialNameChar).takeWhile isWsChar
        match dropLit cc ((s2.dropWhile isPartialNameChar).dropWhile isWsChar) with
        | none => none
        | some rest =>
            some (partialOpenTag ++ ws1 ++ name ++ ws2 ++ cc, name, rest)

/-- Models `template.matchAll(partialRegex)`: every match, in document order,
as (matched text, partial name). -/
def collectPartialsAux : Nat → List Char → List (List Char × List Char)
  | 0, _ => []
  | _ + 1, [] => []
  | n + 1, c :: cs =>
      match matchPartialAt (c :: cs) with
      | some (m, name, rest) => (m, name) :: collectPartialsAux n rest
      | none => collectPartialsAux n cs

/-- All partial-marker matches of a template. -/
def collectPartials (s : List Char) : List (List Char × List Char) :=
  collectPartialsAux s.length s

/-- Models `SimpleTemplateEngine.processPartials`, parameterised by the
recursive renderer applied to a successfully loaded partial file: each
match from the original template is replaced (first occurrence in the
accumulating result) by the recursively rendered partial, or by the
empty string when the load fails. -/
def processPartialsWith (fs : FileSystem) (dir : String)
    (renderSub : String → String) (template : String) : String :=
  (collectPartials template.data).foldl
    (fun result m =>
      let rendered :=
        match fs (partialPath dir (String.mk m.2)) with
        | some partialContent => renderSub partialContent
        | none => ""
      replaceFirst result (String.mk m.1) rendered)
    template

/-- The template engine instance state: views root and helper
registry. -/
structure SimpleTemplateEngine where
  viewsDirectory : String
  helpers : Helpers

/-- The five-stage pipeline body of `SimpleTemplateEngine.render`, with
the recursive partial renderer abstracted. -/
def pipelineStages (e : SimpleTemplateEngine) (fs : FileSystem)
    (renderSub : String → String) (template : String)
    (context : TemplateContext) : String :=
  let r1 := processPartialsWith fs e.viewsDirectory renderSub template
  let r2 := processEach r1 context
  let r3 := processIf r2 context
  let r4 := processHelpers e.helpers r3 context
  processInterpolation r4 context

/-- Models `SimpleTemplateEngine.render`: partials → each → if → helpers →
interpolation.  The fuel bounds the partial-inclusion recursion depth
(the source has no guard and would overflow the stack on a cycle; at
depth 0 a loaded partial renders as the empty string, a branch no
theorem below ever reaches). -/
def SimpleTemplateEngine.render (fs : FileSystem) :
    Nat → SimpleTemplateEngine → String → TemplateContext → String
  | 0, e, template, context =>
      pipelineStages e fs (fun _ => "") template context
  | n + 1, e, template, context =>
      pipelineStages e fs
        (fun content => SimpleTemplateEngine.render fs n e content context)
        template context

/-! ## `HelpersManager` (the standalone helper registry) -/

/-- The resolver callback type taken by `HelpersManager.execute`. -/
abbrev Resolver := String → TemplateContext → JsVal

/-- The tail of `HelpersManager.parseArgument` after the literal
classifications: `true`/`false`/`null` literals, then a context-path
lookup (an `undefined` result is passed through with only a console
warning). -/
def parseArgKeyword (context : TemplateContext) (resolver : Resolver)
    (arg : String) : JsVal :=
  if arg = "true" then some (.vbool true)
  else if arg = "false" then some (.vbool false)
  else if arg = "null" then some .vnull
  else resolver arg context

/-- Models `HelpersManager.parseArgument`: quoted string literal → numeric
literal (with the explicit `arg !== ""` guard) → boolean/null literal →
context path. -/
def parseArgument (context : TemplateContext) (resolver : Resolver)
    (arg : String) : JsVal :=
  if arg.data.head? = some '"' ∧ arg.data.getLast? = some '"' then
    some (.vstr (String.mk (arg.data.drop 1 |>.dropLast)))
  else
    match jsNumber? arg.data with
    | some _ => if arg = "" then parseArgKeyword context resolver arg
                else some (.vnum ((jsNumber? arg.data).getD 0))
    | none => parseArgKeyword context resolver arg

/-- The character loop of `HelpersManager.parseArgs`: an unescaped
double quote toggles the quoted span; an unquoted space closes the
current token when its trim is non-empty; every other character is
accumulated.  `prev` is the previously seen character (`argsString[i-1]`). -/
def parseArgsAux (context : TemplateContext) (resolver : Resolver) :
    List Char → Option Char → List Char → Bool → List JsVal
  | [], _, currentArg, _ =>
      if jsTrim currentArg ≠ [] then
        [parseArgument context resolver (String.mk (jsTrim currentArg))]
      else []
  | c :: cs, prev, currentArg, inQuotes =>
      if c = '"' ∧ prev ≠ some '\\' then
        parseArgsAux context resolver cs (some c) (currentArg ++ [c]) (!inQuotes)
      else if c = ' ' ∧ inQuotes = false ∧ jsTrim currentArg ≠ [] then
        parseArgument context resolver (String.mk (jsTrim currentArg)) ::
          parseArgsAux context resolver cs (some c) [] inQuotes
      else
        parseArgsAux context resolver cs (some c) (currentArg ++ [c]) inQuotes

/-- Models `HelpersManager.parseArgs`. -/
def parseArgs (argsString : String) (context : TemplateContext)
    (resolver : Resolver) : List JsVal :=
  parseArgsAux context resolver argsString.data none [] false

/-- Models `HelpersManager.execute`: an unknown name logs a warning and
returns the empty string; a helper body that throws is caught
(`console.error`) and also yields the empty string; no exception ever
leaves this method in the source under study. -/
def HelpersManager.execute (helpers : Helpers) (name argsString : String)
    (context : TemplateContext) (resolver : Resolver) : String :=
  match lookupFirst helpers name with
  | none => ""
  | some helper =>
      match helper (parseArgs argsString context resolver) with
      | .ok out => out
      | .error _ => ""

/-! ## `RaptorEngine` (the view composer) -/

/-- The error raised by `RaptorEngine.renderFile`.  The class lives in
`exceptions/fileExistsException.ts` and is re-exported by the framework
facade under the name `FileNotExistsException`. -/
inductive ViewError : Type where
  | fileNotExists (message : String)

/-- The view-composer instance state.  `contentMarker` models the
source field holding the content-injection marker (default
`"@content"`). -/
structure RaptorEngine where
  viewsDirectory : String
  defaultLayout : String
  contentMarker : String
  templateEngine : SimpleTemplateEngine
  cacheTemplates : List (String × String)

/-- Models `new RaptorEngine(viewsDirectory)`. -/
def RaptorEngine.make (viewsDirectory : String) (helpers : Helpers) : RaptorEngine :=
  { viewsDirectory := viewsDirectory
    defaultLayout := "main"
    contentMarker := "@content"
    templateEngine := { viewsDirectory := viewsDirectory, helpers := helpers }
    cacheTemplates := [] }

/-- Models `RaptorEngine.renderFile`, instrumented with the list of paths for
which a filesystem read was attempted: a cache hit re-renders the
cached raw text without touching the filesystem; a miss reads the file,
caches the raw text and renders it; a failed read raises
`FileNotExistsException`. -/
def RaptorEngine.renderFile (fs : FileSystem) (fuel : Nat) (self : RaptorEngine)
    (filePath : String) (params : TemplateContext) :
    Except ViewError String × RaptorEngine × List String :=
  match lookupFirst self.cacheTemplates filePath with
  | some cached =>
      (.ok (self.templateEngine.render fs fuel cached params), self, [])
  | none =>
      match fs filePath with
      | some fileContent =>
          (.ok (self.templateEngine.render fs fuel fileContent params),
           { self with cacheTemplates := (filePath, fileContent) :: self.cacheTemplates },
           [filePath])
      | none =>
          (.error (.fileNotExists ("View file not found: " ++ filePath)),
           self, [filePath])

/-- Models `RaptorEngine.renderView`: `<root>/<view>.html`. -/
def RaptorEngine.renderView (fs : FileSystem) (fuel : Nat) (self : RaptorEngine)
    (view : String) (params : TemplateContext) :
    Except ViewError String × RaptorEngine × List String :=
  self.renderFile fs fuel (self.viewsDirectory ++ "/" ++ view ++ ".html") params

/-- Models `RaptorEngine.renderLayout`: `<root>/layouts/<layout>.html`, with
the params defaulted to the empty context. -/
def RaptorEngine.renderLayout (fs : FileSystem) (fuel : Nat) (self : RaptorEngine)
    (layout : String) : Except ViewError String × RaptorEngine × List String :=
  self.renderFile fs fuel (self.viewsDirectory ++ "/layouts/" ++ layout ++ ".html") []

/-- Models `RaptorEngine.render(view, params, layout)`: load and render the
layout (`layout ?? defaultLayout`), then the view, then splice the
rendered view into the rendered layout at the first occurrence of the
content marker. -/
def RaptorEngine.render (fs : FileSystem) (fuel : Nat) (self : RaptorEngine)
    (view : String) (params : TemplateContext) (layout : Option String) :
    Except ViewError String × RaptorEngine × List String :=
  match self.renderLayout fs fuel (layout.getD self.defaultLayout) with
  | (.error e, s1, r1) => (.error e, s1, r1)
  | (.ok layoutContent, s1, r1) =>
      match s1.renderView fs fuel view params with
      | (.error e, s2, r2) => (.error e, s2, r1 ++ r2)
      | (.ok viewContent, s2, r2) =>
          (.ok (replaceFirst layoutContent self.contentMarker viewContent),
           s2, r1 ++ r2)

/-- Models `RaptorEngine.setDefaultLayout`. -/
def RaptorEngine.setDefaultLayout (self : RaptorEngine) (layout : String) : RaptorEngine :=
  { self with defaultLayout := layout }

/-- Models `RaptorEngine.setContentAnnot…` — the marker setter (see
`contentMarker`). -/
def RaptorEngine.setContentMarker (self : RaptorEngine) (marker : String) : RaptorEngine :=
  { self with contentMarker := marker }

/-! ## Basic lemmas: strings, literals, spans -/

theorem strMk_data (s : String) : String.mk s.data = s := rfl

theorem strData_append (a b : String) : (a ++ b).data = a.data ++ b.data := by
  cases a; cases b; rfl

theorem dropLit_cons (a : Char) (d : List Char) (c : Char) (s : List Char) :
    dropLit (a :: d) (c :: s) = if c = a then dropLit d s else none := rfl

theorem dropLit_self_app (d r : List Char) : dropLit d (d ++ r) = some r := by
  induction d with
  | nil => rfl
  | cons a d ih => simp [dropLit, ih]

theorem dropLit_app (d1 d2 t : List Char) :
    dropLit (d1 ++ d2) t = (dropLit d1 t).bind (dropLit d2) := by
  induction d1 generalizing t with
  | nil => simp [dropLit]
  | cons a d ih =>
      cases t with
      | nil => simp [dropLit]
      | cons c s =>
          by_cases h : c = a <;> simp [dropLit, h, ih]

theorem dropLit_eq_append {d t r : List Char} (h : dropLit d t = some r) :
    t = d ++ r := by
  induction d generalizing t with
  | nil => simp [dropLit] at h; simp [h]
  | cons a d ih =>
      cases t with
      | nil => simp [dropLit] at h
      | cons c s =>
          by_cases hc : c = a
          · rw [dropLit_cons, if_pos hc] at h
            simp [hc, ih h]
          · rw [dropLit_cons, if_neg hc] at h; cases h

theorem dropLit_length {d t r : List Char} (h : dropLit d t = some r) :
    r.length + d.length = t.length := by
  have := dropLit_eq_append h
  subst this
  simp [List.length_append]
  omega

theorem takeWhile_app_all {p : Char → Bool} {l : List Char} (r : List Char)
    (hl : ∀ c ∈ l, p c = true) :
    (l ++ r).takeWhile p = l ++ r.takeWhile p := by
  induction l with
  | nil => rfl
  | cons a l ih =>
      have ha := hl a (by simp)
      simp [List.takeWhile_cons, ha]
      exact ih fun c hc => hl c (by simp [hc])

theorem takeWhile_head_false {p : Char → Bool} {r : List Char}
    (h : ∀ c, r.head? = some c → p c = false) : r.takeWhile p = [] := by
  cases r with
  | nil => rfl
  | cons a l => simp [List.takeWhile_cons, h a rfl]

theorem dropWhile_app_all {p : Char → Bool} {l : List Char} (r : List Char)
    (hl : ∀ c ∈ l, p c = true) :
    (l ++ r).dropWhile p = r.dropWhile p := by
  induction l with
  | nil => rfl
  | cons a l ih =>
      have ha := hl a (by simp)
      simp [List.dropWhile_cons, ha]
      exact ih fun c hc => hl c (by simp [hc])

theorem dropWhile_head_false {p : Char → Bool} {r : List Char}
    (h : ∀ c, r.head? = some c → p c = false) : r.dropWhile p = r := by
  cases r with
  | nil => rfl
  | cons a l => simp [List.dropWhile_cons, h a rfl]

theorem dropLit_self (d : List Char) : dropLit d d = some [] := by
  induction d with
  | nil => rfl
  | cons a d ih => simp [dropLit, ih]

theorem splitFirst_here {pat r : List Char} (post : List Char)
    (h : dropLit pat r = some post) : splitFirst pat r = some ([], post) := by
  cases r with
  | nil => simp [splitFirst, h]
  | cons c s => simp [splitFirst, h]

theorem splitFirst_cons_ne {pat : List Char} {c : Char} (cs : List Char)
    (h : dropLit pat (c :: cs) = none) :
    splitFirst pat (c :: cs) =
      match splitFirst pat cs with
      | some (pre, post) => some (c :: pre, post)
      | none => none := by
  simp [splitFirst, h]

/-- Character-level head mismatch kills a literal match. -/
theorem dropLit_head_ne {a : Char} {d : List Char} {c : Char} {s : List Char}
    (h : c ≠ a) : dropLit (a :: d) (c :: s) = none := by
  simp [dropLit, h]

theorem splitFirst_app {a : Char} {pat' pre post : List Char}
    (hpre : ∀ c ∈ pre, c ≠ a) :
    splitFirst (a :: pat') (pre ++ (a :: pat') ++ post) = some (pre, post) := by
  induction pre with
  | nil =>
      exact splitFirst_here post (by simpa using dropLit_self_app (a :: pat') post)
  | cons c cs ih =>
      have hc : c ≠ a := hpre c (by simp)
      have hrec := ih fun x hx => hpre x (by simp [hx])
      have hshape : (c :: cs ++ (a :: pat') ++ post : List Char)
          = c :: (cs ++ (a :: pat') ++ post) := by simp
      rw [hshape, splitFirst_cons_ne _ (dropLit_head_ne hc), hrec]

theorem splitFirst_none_of_all_ne {a : Char} {pat' s : List Char}
    (hs : ∀ c ∈ s, c ≠ a) : splitFirst (a :: pat') s = none := by
  induction s with
  | nil => rfl
  | cons c cs ih =>
      rw [splitFirst_cons_ne _ (dropLit_head_ne (hs c (by simp)))]
      simp [ih fun x hx => hs x (by simp [hx])]

theorem splitFirst_sound {pat s pre post : List Char}
    (h : splitFirst pat s = some (pre, post)) : s = pre ++ pat ++ post := by
  induction s generalizing pre post with
  | nil =>
      cases hd : dropLit pat [] with
      | none => simp [splitFirst, hd] at h
      | some r =>
          simp [splitFirst, hd] at h
          obtain ⟨rfl, rfl⟩ := h
          simpa using dropLit_eq_append hd
  | cons c cs ih =>
      cases hd : dropLit pat (c :: cs) with
      | some r =>
          simp [splitFirst, hd] at h
          obtain ⟨rfl, rfl⟩ := h
          simpa using dropLit_eq_append hd
      | none =>
          cases hs : splitFirst pat cs with
          | none => simp [splitFirst, hd, hs] at h
          | some pq =>
              obtain ⟨p, q⟩ := pq
              simp [splitFirst, hd, hs] at h
              obtain ⟨rfl, rfl⟩ := h
              simpa using ih hs

theorem splitFirst_min {pat s pre post : List Char}
    (h : splitFirst pat s = some (pre, post)) :
    ∀ pre' post', s = pre' ++ pat ++ post' → pre.length ≤ pre'.length := by
  induction s generalizing pre post with
  | nil =>
      intro pre' post' heq
      cases hd : dropLit pat [] with
      | none => simp [splitFirst, hd] at h
      | some r =>
          simp [splitFirst, hd] at h
          simp [h.1]
  | cons c cs ih =>
      intro pre' post' heq
      cases hd : dropLit pat (c :: cs) with
      | some r =>
          simp [splitFirst, hd] at h
          simp [h.1]
      | none =>
          cases hs : splitFirst pat cs with
          | none => simp [splitFirst, hd, hs] at h
          | some pq =>
              obtain ⟨p, q⟩ := pq
              simp [splitFirst, hd, hs] at h
              obtain ⟨rfl, rfl⟩ := h
              cases pre' with
              | nil =>
                  exfalso
                  have hd2 : dropLit pat (c :: cs) = some post' := by
                    rw [show (c :: cs : List Char) = pat ++ post' by simpa using heq]
                    exact dropLit_self_app pat post'
                  rw [hd2] at hd; cases hd
              | cons c' pre'' =>
                  have hc : c' = c := by
                    have hh := congrArg List.head? heq
                    simp at hh
                    exact hh.symm
                  subst hc
                  have hcs : cs = pre'' ++ pat ++ post' := by
                    have ht := congrArg List.tail heq
                    simpa using ht
                  simpa using ih hs pre'' post' hcs

/-! ## Scanner lemmas -/

theorem scanAux_nil (f : List Char → Option (List Char × List Char)) (n : Nat) :
    scanAux f n [] = [] := by
  cases n <;> rfl

/-- A single match covering the whole input determines the scan. -/
theorem scanChars_total (f : List Char → Option (List Char × List Char))
    {s r : List Char} (hne : s ≠ []) (h : f s = some (r, [])) :
    scanChars f s = r := by
  cases s with
  | nil => exact absurd rfl hne
  | cons c cs =>
      show scanAux f (c :: cs).length (c :: cs) = r
      rw [List.length_cons]
      simp [scanAux, h, scanAux_nil]

/-- Destructure "pattern does not occur" over a cons cell. -/
theorem splitFirst_none_cons {pat : List Char} {c : Char} {cs : List Char}
    (h : splitFirst pat (c :: cs) = none) :
    dropLit pat (c :: cs) = none ∧ splitFirst pat cs = none := by
  cases hd : dropLit pat (c :: cs) with
  | some r => rw [splitFirst_here _ hd] at h; cases h
  | none =>
      refine ⟨rfl, ?_⟩
      cases hs : splitFirst pat cs with
      | some pq => rw [splitFirst_cons_ne _ hd, hs] at h; cases h
      | none => rfl

/-- A matcher that needs a literal at the match position scans a
pattern-free input as the identity. -/
theorem scanAux_copy_of_none (pat : List Char)
    (f : List Char → Option (List Char × List Char))
    (hf : ∀ t, dropLit pat t = none → f t = none) :
    ∀ s n, s.length ≤ n → splitFirst pat s = none → scanAux f n s = s := by
  intro s
  induction s with
  | nil => intro n _ _; exact scanAux_nil f n
  | cons c cs ih =>
      intro n hn hsp
      obtain ⟨h1, h2⟩ := splitFirst_none_cons hsp
      cases n with
      | zero => simp at hn
      | succ m =>
          simp only [scanAux, hf _ h1]
          rw [ih m (by simpa using hn) h2]

/-! ## Character-class facts -/

theorem isWsChar_cases {c : Char} (h : isWsChar c = true) :
    c = ' ' ∨ c = '\t' ∨ c = '\n' ∨ c = '\r' := by
  have hh : ((c = ' ' ∨ c = '\t') ∨ c = '\n') ∨ c = '\r' := by
    simpa [isWsChar] using h
  tauto

theorem isPathChar_not_ws {c : Char} (h : isPathChar c = true) :
    isWsChar c = false := by
  cases hw : isWsChar c with
  | false => rfl
  | true =>
      rcases isWsChar_cases hw with rfl | rfl | rfl | rfl <;>
        exact absurd h (by decide)

theorem isPathChar_ne_obrace {c : Char} (h : isPathChar c = true) :
    c ≠ '\x7b' := by
  rintro rfl; exact absurd h (by decide)

theorem isPathChar_ne_cbrace {c : Char} (h : isPathChar c = true) :
    c ≠ '\x7d' := by
  rintro rfl; exact absurd h (by decide)

theorem isPartialNameChar_not_ws {c : Char} (h : isPartialNameChar c = true) :
    isWsChar c = false := by
  cases hw : isWsChar c with
  | false => rfl
  | true =>
      rcases isWsChar_cases hw with rfl | rfl | rfl | rfl <;>
        exact absurd h (by decide)

theorem isPartialNameChar_ne_obrace {c : Char} (h : isPartialNameChar c = true) :
    c ≠ '\x7b' := by
  rintro rfl; exact absurd h (by decide)

/-! ## Matcher-failure lemmas: every marker starts with `{{` -/

theorem ooo_eq : ooo = oo ++ ['\x7b'] := rfl
theorem ifOpenTag_eq : ifOpenTag = oo ++ "#if".data := rfl
theorem eachOpenTag_eq : eachOpenTag = oo ++ "#each".data := rfl
theorem partialOpenTag_eq : partialOpenTag = oo ++ ">".data := rfl

theorem dropLit_ext_none {d1 d2 t : List Char} (h : dropLit d1 t = none) :
    dropLit (d1 ++ d2) t = none := by
  rw [dropLit_app, h]; rfl

theorem matchInterpAt_none {ext closeTag t : List Char}
    (h : dropLit oo t = none) :
    matchInterpAt (oo ++ ext) closeTag t = none := by
  simp [matchInterpAt, dropLit_ext_none h]

theorem rawInterpStep_none {context t} (h : dropLit oo t = none) :
    rawInterpStep context t = none := by
  rw [rawInterpStep, ooo_eq, matchInterpAt_none h]; rfl

theorem escInterpStep_none {context t} (h : dropLit oo t = none) :
    escInterpStep context t = none := by
  rw [escInterpStep, show oo = oo ++ [] by simp, matchInterpAt_none h]
  rfl

theorem matchIfAt_none {context t} (h : dropLit oo t = none) :
    matchIfAt context t = none := by
  rw [matchIfAt, ifOpenTag_eq, dropLit_ext_none h]

theorem matchEachAt_none {context t} (h : dropLit oo t = none) :
    matchEachAt context t = none := by
  rw [matchEachAt, eachOpenTag_eq, dropLit_ext_none h]

theorem matchHelperAt_none {helpers context t} (h : dropLit oo t = none) :
    matchHelperAt helpers context t = none := by
  rw [matchHelperAt, h]

theorem matchThisPropAt_none {item t} (h : dropLit oo t = none) :
    matchThisPropAt item t = none := by
  rw [matchThisPropAt, h]

theorem matchKeywordAt_none {keyword repl t} (h : dropLit oo t = none) :
    matchKeywordAt keyword repl t = none := by
  rw [matchKeywordAt, h]

theorem matchPartialAt_none {t} (h : dropLit oo t = none) :
    matchPartialAt t = none := by
  rw [matchPartialAt, partialOpenTag_eq, dropLit_ext_none h]

/-! ## Stage identity on marker-free text -/

theorem processIf_id {t : String} {context : TemplateContext}
    (h : splitFirst oo t.data = none) : processIf t context = t := by
  rw [processIf, scanChars,
    scanAux_copy_of_none oo _ (fun u hu => matchIfAt_none hu) t.data _ le_rfl h]

theorem processEach_id {t : String} {context : TemplateContext}
    (h : splitFirst oo t.data = none) : processEach t context = t := by
  rw [processEach, scanChars,
    scanAux_copy_of_none oo _ (fun u hu => matchEachAt_none hu) t.data _ le_rfl h]

theorem processHelpers_id {helpers : Helpers} {t : String} {context : TemplateContext}
    (h : splitFirst oo t.data = none) : processHelpers helpers t context = t := by
  rw [processHelpers, scanChars,
    scanAux_copy_of_none oo _ (fun u hu => matchHelperAt_none hu) t.data _ le_rfl h]

theorem processInterpolation_id {t : String} {context : TemplateContext}
    (h : splitFirst oo t.data = none) : processInterpolation t context = t := by
  rw [processInterpolation, scanChars, scanChars,
    scanAux_copy_of_none oo _ (fun u hu => rawInterpStep_none hu) t.data _ le_rfl h,
    scanAux_copy_of_none oo _ (fun u hu => escInterpStep_none hu) t.data _ le_rfl h]

theorem collectPartialsAux_nil_of_none :
    ∀ (s : List Char) (n : Nat), s.length ≤ n → splitFirst oo s = none →
      collectPartialsAux n s = [] := by
  intro s
  induction s with
  | nil => intro n _ _; cases n <;> rfl
  | cons c cs ih =>
      intro n hn hsp
      obtain ⟨h1, h2⟩ := splitFirst_none_cons hsp
      cases n with
      | zero => simp at hn
      | succ m =>
          simp only [collectPartialsAux, matchPartialAt_none h1]
          exact ih m (by simpa using hn) h2

theorem processPartialsWith_id {fs : FileSystem} {dir : String}
    {renderSub : String → String} {t : String}
    (h : splitFirst oo t.data = none) :
    processPartialsWith fs dir renderSub t = t := by
  rw [processPartialsWith, collectPartials,
    collectPartialsAux_nil_of_none t.data _ le_rfl h]
  rfl

theorem pipelineStages_id {e : SimpleTemplateEngine} {fs : FileSystem}
    {renderSub : String → String} {t : String} {context : TemplateContext}
    (h : splitFirst oo t.data = none) :
    pipelineStages e fs renderSub t context = t := by
  rw [pipelineStages, processPartialsWith_id h, processEach_id h,
    processIf_id h, processHelpers_id h, processInterpolation_id h]

theorem render_id {fs : FileSystem} {fuel : Nat} {e : SimpleTemplateEngine}
    {t : String} {context : TemplateContext}
    (h : splitFirst oo t.data = none) :
    SimpleTemplateEngine.render fs fuel e t context = t := by
  cases fuel with
  | zero => exact pipelineStages_id h
  | succ n => exact pipelineStages_id h

/-! ## Evaluating the `#if` matcher on a well-formed block -/

theorem elseTag_cons : elseTag = '\x7b' :: "\x7belse\x7d\x7d".data := rfl
theorem ifCloseTag_cons : ifCloseTag = '\x7b' :: "\x7b/if\x7d\x7d".data := rfl
theorem findIfBody_eq_of_else {s afterElse falsy rest : List Char}
    (h1 : dropLit elseTag s = some afterElse)
    (h2 : splitFirst ifCloseTag afterElse = some (falsy, rest)) :
    findIfBody s = some ([], some falsy, rest) := by
  cases s with
  | nil => rw [show dropLit elseTag ([] : List Char) = none from rfl] at h1; cases h1
  | cons c cs => simp only [findIfBody, h1, h2]

theorem findIfBody_eq_of_close {s rest : List Char}
    (h1 : dropLit elseTag s = none)
    (h2 : dropLit ifCloseTag s = some rest) :
    findIfBody s = some ([], none, rest) := by
  cases s with
  | nil => rw [show dropLit ifCloseTag ([] : List Char) = none from rfl] at h2; cases h2
  | cons c cs => simp only [findIfBody, h1, h2]

theorem findIfBody_skip {c : Char} {cs : List Char}
    (h1 : dropLit elseTag (c :: cs) = none)
    (h2 : dropLit ifCloseTag (c :: cs) = none) :
    findIfBody (c :: cs) =
      match findIfBody cs with
      | some (t, f, r) => some (c :: t, f, r)
      | none => none := by
  simp only [findIfBody, h1, h2]

theorem findIfBody_else {A B : List Char}
    (hA : ∀ c ∈ A, c ≠ '\x7b') (hB : ∀ c ∈ B, c ≠ '\x7b') :
    findIfBody (A ++ elseTag ++ B ++ ifCloseTag) = some (A, some B, []) := by
  induction A with
  | nil =>
      have h2 : splitFirst ifCloseTag (B ++ ifCloseTag) = some (B, []) := by
        rw [ifCloseTag_cons, show B ++ '\x7b' :: "\x7b/if\x7d\x7d".data
            = B ++ '\x7b' :: "\x7b/if\x7d\x7d".data ++ [] by simp]
        exact splitFirst_app hB
      simp only [List.nil_append]
      rw [show elseTag ++ B ++ ifCloseTag = elseTag ++ (B ++ ifCloseTag) by simp]
      exact findIfBody_eq_of_else (dropLit_self_app _ _) h2
  | cons c A' ih =>
      have hc : c ≠ '\x7b' := hA c (by simp)
      have hrec := ih (fun x hx => hA x (by simp [hx]))
      have hshape : (c :: A' ++ elseTag ++ B ++ ifCloseTag : List Char)
          = c :: (A' ++ elseTag ++ B ++ ifCloseTag) := by simp
      rw [hshape, findIfBody_skip
        (by rw [elseTag_cons]; exact dropLit_head_ne hc)
        (by rw [ifCloseTag_cons]; exact dropLit_head_ne hc), hrec]

theorem findIfBody_noelse {A : List Char} (hA : ∀ c ∈ A, c ≠ '\x7b') :
    findIfBody (A ++ ifCloseTag) = some (A, none, []) := by
  induction A with
  | nil =>
      simp only [List.nil_append]
      exact findIfBody_eq_of_close (by rfl)
        (by rw [show ifCloseTag = ifCloseTag ++ [] by simp]; exact dropLit_self_app _ _)
  | cons c A' ih =>
      have hc : c ≠ '\x7b' := hA c (by simp)
      have hrec := ih (fun x hx => hA x (by simp [hx]))
      have hshape : (c :: A' ++ ifCloseTag : List Char)
          = c :: (A' ++ ifCloseTag) := by simp
      rw [hshape, findIfBody_skip
        (by rw [elseTag_cons]; exact dropLit_head_ne hc)
        (by rw [ifCloseTag_cons]; exact dropLit_head_ne hc), hrec]

/-- Evaluate the `#if` matcher at the head of a block written
`{{#if <path>}}` followed by `tail`, given the lazy body search result
on `tail`. -/
theorem matchIfAt_header (context : TemplateContext) (x tail : List Char)
    {T : List Char} {F : Option (List Char)} {rest : List Char}
    (hx : x ≠ []) (hxc : ∀ c ∈ x, isPathChar c = true)
    (htail : findIfBody tail = some (T, F, rest)) :
    matchIfAt context (ifOpenTag ++ (' ' :: (x ++ (cc ++ tail))))
      = some (if isTruthy (resolveValue (String.mk x) context) then T
              else F.getD [], rest) := by
  obtain ⟨xc, x', rfl⟩ := List.exists_cons_of_ne_nil hx
  have hxcpath : isPathChar xc = true := hxc xc (by simp)
  have hxcws : isWsChar xc = false := isPathChar_not_ws hxcpath
  have hspace : isWsChar ' ' = true := by decide
  have hin : ((xc :: x') ++ (cc ++ tail) : List Char)
      = xc :: (x' ++ (cc ++ tail)) := by simp
  rw [matchIfAt, dropLit_self_app, hin]
  dsimp only
  have htake : ((' ' :: xc :: (x' ++ (cc ++ tail)) : List Char).takeWhile isWsChar)
      = [' '] := by
    rw [List.takeWhile_cons, List.takeWhile_cons]
    simp [hspace, hxcws]
  have hdropws : ((' ' :: xc :: (x' ++ (cc ++ tail)) : List Char).dropWhile isWsChar)
      = xc :: (x' ++ (cc ++ tail)) := by
    rw [List.dropWhile_cons, List.dropWhile_cons]
    simp [hspace, hxcws]
  rw [htake]
  simp only [List.isEmpty_cons, Bool.false_eq_true, if_false, hdropws]
  have hccHead : ∀ c : Char, (cc ++ tail : List Char).head? = some c →
      isPathChar c = false := by
    rintro c hc
    cases hc
    decide
  have hccHeadWs : ∀ c : Char, (cc ++ tail : List Char).head? = some c →
      isWsChar c = false := by
    rintro c hc
    cases hc
    decide
  have htakep : ((xc :: (x' ++ (cc ++ tail)) : List Char).takeWhile isPathChar)
      = xc :: x' := by
    rw [← hin, takeWhile_app_all _ hxc, takeWhile_head_false hccHead]
    simp
  have hdropp : ((xc :: (x' ++ (cc ++ tail)) : List Char).dropWhile isPathChar)
      = cc ++ tail := by
    rw [← hin, dropWhile_app_all _ hxc, dropWhile_head_false hccHead]
  rw [htakep]
  simp only [List.isEmpty_cons, Bool.false_eq_true, if_false, hdropp]
  rw [dropWhile_head_false hccHeadWs, dropLit_self_app]
  dsimp only
  rw [htail]

/-! ## String-to-list conversions for the block templates -/

theorem append_ne_nil_left {l r : List Char} (h : l ≠ []) : l ++ r ≠ [] := by
  cases l with
  | nil => exact absurd rfl h
  | cons a l => simp

theorem ifOpenTag_ne_nil : ifOpenTag ≠ [] := by decide

theorem ifOpen_space (y : List Char) :
    "\x7b\x7b#if ".data ++ y = ifOpenTag ++ (' ' :: y) := rfl

theorem data_of_ifblock_else (x A B : String) :
    ("\x7b\x7b#if " ++ x ++ "\x7d\x7d" ++ A ++ "\x7b\x7belse\x7d\x7d" ++ B
      ++ "\x7b\x7b/if\x7d\x7d").data
    = ifOpenTag ++ (' ' :: (x.data
        ++ (cc ++ (A.data ++ elseTag ++ B.data ++ ifCloseTag)))) := by
  simp only [strData_append,
    show "\x7d\x7d".data = cc from rfl,
    show "\x7b\x7belse\x7d\x7d".data = elseTag from rfl,
    show "\x7b\x7b/if\x7d\x7d".data = ifCloseTag from rfl,
    List.append_assoc]
  rfl

theorem data_of_ifblock_noelse (x A : String) :
    ("\x7b\x7b#if " ++ x ++ "\x7d\x7d" ++ A ++ "\x7b\x7b/if\x7d\x7d").data
    = ifOpenTag ++ (' ' :: (x.data ++ (cc ++ (A.data ++ ifCloseTag)))) := by
  simp only [strData_append,
    show "\x7d\x7d".data = cc from rfl,
    show "\x7b\x7b/if\x7d\x7d".data = ifCloseTag from rfl,
    List.append_assoc]
  rfl

/-- C4.  The `{{#if x}}A{{else}}B{{/if}}` block renders `A` exactly when
the resolved value of `x` is truthy, `B` otherwise; with the `{{else}}`
branch omitted the falsy result is the empty string; and the falsy
values are exactly `undefined`, `null`, `false`, `""` and the empty
array (so `0`, non-empty strings, non-empty arrays and objects are all
truthy).  The branch bodies are quantified over brace-free strings and
the condition over well-formed paths. -/
theorem if_block_truthiness (x A B : String) (context : TemplateContext)
    (hx : x.data ≠ []) (hxc : ∀ c ∈ x.data, isPathChar c = true)
    (hA : ∀ c ∈ A.data, c ≠ '\x7b') (hB : ∀ c ∈ B.data, c ≠ '\x7b') :
    (processIf ("\x7b\x7b#if " ++ x ++ "\x7d\x7d" ++ A ++ "\x7b\x7belse\x7d\x7d"
        ++ B ++ "\x7b\x7b/if\x7d\x7d") context
      = if isTruthy (resolveValue x context) then A else B)
    ∧ (processIf ("\x7b\x7b#if " ++ x ++ "\x7d\x7d" ++ A ++ "\x7b\x7b/if\x7d\x7d") context
      = if isTruthy (resolveValue x context) then A else "")
    ∧ (∀ v : JsVal, isTruthy v = false ↔
        v = none ∨ v = some .vnull ∨ v = some (.vbool false) ∨
        v = some (.vstr "") ∨ v = some (.varr [])) := by
  refine ⟨?_, ?_, ?_⟩
  · have hm := matchIfAt_header context x.data
      (A.data ++ elseTag ++ B.data ++ ifCloseTag) hx hxc
      (findIfBody_else hA hB)
    rw [strMk_data] at hm
    rw [processIf, data_of_ifblock_else,
      scanChars_total _ (append_ne_nil_left ifOpenTag_ne_nil) hm]
    cases h : isTruthy (resolveValue x context) <;> simp [h, strMk_data]
  · have hm := matchIfAt_header context x.data
      (A.data ++ ifCloseTag) hx hxc (findIfBody_noelse hA)
    rw [strMk_data] at hm
    rw [processIf, data_of_ifblock_noelse,
      scanChars_total _ (append_ne_nil_left ifOpenTag_ne_nil) hm]
    cases h : isTruthy (resolveValue x context) <;> simp [h, strMk_data]
  · intro v
    match v with
    | none => simp [isTruthy]
    | some .vnull => simp [isTruthy]
    | some (.vbool true) => simp [isTruthy]
    | some (.vbool false) => simp [isTruthy]
    | some (.vnum n) => simp [isTruthy]
    | some (.vstr s) =>
        by_cases hs : s = "" <;> simp [isTruthy, hs]
    | some (.varr xs) => cases xs <;> simp [isTruthy]
    | some (.vobj fields) => simp [isTruthy]

/-- Witness for C4 at a concrete truthy input. -/
theorem if_block_truthiness_witness :
    processIf "\x7b\x7b#if x\x7d\x7dA\x7b\x7belse\x7d\x7dB\x7b\x7b/if\x7d\x7d"
      [("x", Value.vbool true)] = "A" := by
  have h := (if_block_truthiness "x" "A" "B" [("x", Value.vbool true)]
    (by decide) (by decide) (by decide) (by decide)).1
  rw [show ("\x7b\x7b#if " ++ "x" ++ "\x7d\x7d" ++ "A" ++ "\x7b\x7belse\x7d\x7d"
      ++ "B" ++ "\x7b\x7b/if\x7d\x7d" : String)
    = "\x7b\x7b#if x\x7d\x7dA\x7b\x7belse\x7d\x7dB\x7b\x7b/if\x7d\x7d" from rfl] at h
  rw [h,
    show isTruthy (resolveValue "x" [("x", Value.vbool true)]) = true from rfl,
    if_pos rfl]

/-- C3.  `SimpleTemplateEngine.render` is exactly the five-stage
pipeline in the fixed order partials → `#each` → `#if` → helpers →
interpolation, each stage consuming the previous stage's full
output. -/
theorem render_pipeline_order (n : Nat) (fs : FileSystem)
    (e : SimpleTemplateEngine) (template : String) (context : TemplateContext) :
    SimpleTemplateEngine.render fs (n + 1) e template context
      = processInterpolation
          (processHelpers e.helpers
            (processIf
              (processEach
                (processPartialsWith fs e.viewsDirectory
                  (fun content => SimpleTemplateEngine.render fs n e content context)
                  template)
                context)
              context)
            context)
          context := rfl

/-! ## Evaluating the interpolation matcher on a single marker -/

theorem matchInterpAt_open_none {openTag closeTag t : List Char}
    (h : dropLit openTag t = none) :
    matchInterpAt openTag closeTag t = none := by
  simp [matchInterpAt, h]

theorem matchInterpAt_exact {openTag closeTag p : List Char}
    (hp : p ≠ []) (hpc : ∀ c ∈ p, isPathChar c = true)
    (hclose : ∀ c, closeTag.head? = some c → isWsChar c = false) :
    matchInterpAt openTag closeTag (openTag ++ (' ' :: (p ++ (' ' :: closeTag))))
      = some (String.mk p, []) := by
  obtain ⟨pc, p', rfl⟩ := List.exists_cons_of_ne_nil hp
  have hpcpath : isPathChar pc = true := hpc pc (by simp)
  have hpcws : isWsChar pc = false := isPathChar_not_ws hpcpath
  have hspace : isWsChar ' ' = true := by decide
  have hin : ((pc :: p') ++ (' ' :: closeTag) : List Char)
      = pc :: (p' ++ (' ' :: closeTag)) := by simp
  rw [matchInterpAt, dropLit_self_app, hin]
  dsimp only
  have hdropws : ((' ' :: pc :: (p' ++ (' ' :: closeTag)) : List Char).dropWhile isWsChar)
      = pc :: (p' ++ (' ' :: closeTag)) := by
    rw [List.dropWhile_cons, List.dropWhile_cons]
    simp [hspace, hpcws]
  rw [hdropws]
  have hspHead : ∀ c : Char, (' ' :: closeTag : List Char).head? = some c →
      isPathChar c = false := by
    rintro c hc
    cases hc
    decide
  have htakep : ((pc :: (p' ++ (' ' :: closeTag)) : List Char).takeWhile isPathChar)
      = pc :: p' := by
    rw [← hin, takeWhile_app_all _ hpc, takeWhile_head_false hspHead]
    simp
  have hdropp : ((pc :: (p' ++ (' ' :: closeTag)) : List Char).dropWhile isPathChar)
      = ' ' :: closeTag := by
    rw [← hin, dropWhile_app_all _ hpc, dropWhile_head_false hspHead]
  rw [htakep]
  simp only [List.isEmpty_cons, Bool.false_eq_true, if_false, hdropp]
  rw [List.dropWhile_cons]
  simp only [hspace, if_true]
  rw [dropWhile_head_false hclose, dropLit_self]

theorem data_of_escMarker (p : String) :
    ("\x7b\x7b " ++ p ++ " \x7d\x7d").data = oo ++ (' ' :: (p.data ++ (' ' :: cc))) := by
  simp only [strData_append, List.append_assoc]
  rfl

theorem data_of_rawMarker (p : String) :
    ("\x7b\x7b\x7b " ++ p ++ " \x7d\x7d\x7d").data
      = ooo ++ (' ' :: (p.data ++ (' ' :: ccc))) := by
  simp only [strData_append, List.append_assoc]
  rfl

theorem splitFirst_cons_of_none {pat : List Char} {c : Char} {cs : List Char}
    (h1 : dropLit pat (c :: cs) = none) (h2 : splitFirst pat cs = none) :
    splitFirst pat (c :: cs) = none := by
  rw [splitFirst_cons_ne _ h1, h2]

/-- Identity of a scan whose matcher needs a pattern that does not
occur in the input. -/
theorem scanChars_id_of_none (pat : List Char)
    (f : List Char → Option (List Char × List Char))
    (hf : ∀ t, dropLit pat t = none → f t = none)
    (s : List Char) (hs : splitFirst pat s = none) : scanChars f s = s :=
  scanAux_copy_of_none pat f hf s _ le_rfl hs

/-- The raw (`{{{`) pass does not fire anywhere on an escaped marker
`{{ p }}` whose path is brace-free. -/
theorem splitFirst_ooo_escMarker {p : List Char}
    (hpc : ∀ c ∈ p, isPathChar c = true) :
    splitFirst ooo (oo ++ (' ' :: (p ++ (' ' :: cc)))) = none := by
  have hall : ∀ c ∈ (' ' :: (p ++ (' ' :: cc)) : List Char), c ≠ '\x7b' := by
    intro c hc
    simp only [List.mem_cons, List.mem_append] at hc
    rcases hc with rfl | hcp | hcc
    · decide
    · exact isPathChar_ne_obrace (hpc c hcp)
    · rw [show cc = ['\x7d', '\x7d'] from rfl] at hcc
      simp only [List.mem_cons, List.not_mem_nil, or_false] at hcc
      rcases hcc with rfl | rfl | rfl <;> decide
  rw [show (oo ++ (' ' :: (p ++ (' ' :: cc))) : List Char)
      = '\x7b' :: ('\x7b' :: (' ' :: (p ++ (' ' :: cc)))) from rfl]
  refine splitFirst_cons_of_none (by rfl) ?_
  refine splitFirst_cons_of_none (by rfl) ?_
  rw [show ooo = '\x7b' :: ['\x7b', '\x7b'] from rfl]
  exact splitFirst_none_of_all_ne hall

/-- The escaped pass over `{{ p }}` (after the raw pass left it
untouched) substitutes the escaped resolved value. -/
theorem processInterpolation_marker_esc (p : String) (context : TemplateContext)
    (hp : p.data ≠ []) (hpc : ∀ c ∈ p.data, isPathChar c = true) :
    processInterpolation ("\x7b\x7b " ++ p ++ " \x7d\x7d") context
      = escapeHtml (jsStringOrEmpty (resolveValue p context)) := by
  rw [processInterpolation, data_of_escMarker]
  rw [scanChars_id_of_none ooo _
    (fun u hu => by rw [rawInterpStep, matchInterpAt_open_none hu]; rfl)
    _ (splitFirst_ooo_escMarker hpc)]
  have hm : escInterpStep context (oo ++ (' ' :: (p.data ++ (' ' :: cc))))
      = some ((escapeHtml (jsStringOrEmpty (resolveValue p context))).data, []) := by
    rw [escInterpStep, matchInterpAt_exact hp hpc
      (by rintro c hc; cases hc; decide)]
    simp [strMk_data]
  rw [scanChars_total _ (by rw [show oo = '\x7b' :: ['\x7b'] from rfl]; simp) hm]

/-- The raw pass over `{{{ p }}}` substitutes the unescaped value; the
escaped pass then leaves it unchanged when the value contains no `{{`. -/
theorem processInterpolation_marker_raw (p : String) (context : TemplateContext)
    (hp : p.data ≠ []) (hpc : ∀ c ∈ p.data, isPathChar c = true)
    (hval : splitFirst oo (jsStringOrEmpty (resolveValue p context)).data = none) :
    processInterpolation ("\x7b\x7b\x7b " ++ p ++ " \x7d\x7d\x7d") context
      = jsStringOrEmpty (resolveValue p context) := by
  rw [processInterpolation, data_of_rawMarker]
  have hm : rawInterpStep context (ooo ++ (' ' :: (p.data ++ (' ' :: ccc))))
      = some ((jsStringOrEmpty (resolveValue p context)).data, []) := by
    rw [rawInterpStep, matchInterpAt_exact hp hpc
      (by rintro c hc; cases hc; decide)]
    simp [strMk_data]
  rw [scanChars_total _ (by rw [show ooo = '\x7b' :: ('\x7b' :: ['\x7b']) from rfl]; simp) hm]
  rw [scanChars_id_of_none oo _ (fun u hu => escInterpStep_none hu) _ hval]

/-! ## Escaping facts -/

theorem escapeChar_no_specials (c : Char) :
    ∀ d ∈ (escapeChar c).data, d ≠ '<' ∧ d ≠ '>' ∧ d ≠ '"' ∧ d ≠ '\'' := by
  by_cases h1 : c = '&'
  · subst h1; decide
  by_cases h2 : c = '<'
  · subst h2; decide
  by_cases h3 : c = '>'
  · subst h3; decide
  by_cases h4 : c = '"'
  · subst h4; decide
  by_cases h5 : c = '\''
  · subst h5; decide
  rw [escapeChar, if_neg h1, if_neg h2, if_neg h3, if_neg h4, if_neg h5]
  intro d hd
  rw [show (String.singleton c).data = [c] from rfl] at hd
  simp only [List.mem_cons, List.not_mem_nil, or_false] at hd
  subst hd
  exact ⟨h2, h3, h4, h5⟩

theorem strJoin_data (l : List String) :
    (String.join l).data = (l.map String.data).flatten := by
  have haux : ∀ (l : List String) (a : String),
      (l.foldl (· ++ ·) a).data = a.data ++ (l.map String.data).flatten := by
    intro l
    induction l with
    | nil => intro a; simp
    | cons s l ih => intro a; simp [ih, strData_append]
  simp [haux l ""]

theorem escapeHtml_no_specials (s : String) :
    ∀ c ∈ (escapeHtml s).data, c ≠ '<' ∧ c ≠ '>' ∧ c ≠ '"' ∧ c ≠ '\'' := by
  intro c hc
  rw [escapeHtml, strJoin_data] at hc
  simp only [List.mem_flatten, List.mem_map, List.map_map] at hc
  obtain ⟨piece, ⟨d, hd, rfl⟩, hcpiece⟩ := hc
  exact escapeChar_no_specials d c hcpiece

/-- C5 counterexample.  A raw-interpolated string value is rescanned by
the escaped interpolation pass, so a value containing an interpolation
marker (here `{{a}}"`, which contains the special character `"`) is not
reproduced exactly: the embedded `{{a}}` is substituted away. -/
theorem raw_interpolation_rescan_counterexample :
    processInterpolation "\x7b\x7b\x7bp\x7d\x7d\x7d"
        [("p", Value.vstr "\x7b\x7ba\x7d\x7d\"")] = "\""
    ∧ ("\"" : String) ≠ "\x7b\x7ba\x7d\x7d\"" :=
  ⟨rfl, by decide⟩

/-- C5 (amended).  For a path resolving to a string value `s`: escaped
interpolation `{{ p }}` yields `escapeHtml s`, whose output contains
none of the raw characters `<`, `>`, `"`, `'`; raw interpolation
`{{{ p }}}` reproduces `s` exactly provided `s` contains no `{{`
(otherwise the escaped pass rewrites marker-shaped substrings of the
injected value). -/
theorem interpolation_escaping (p s : String) (context : TemplateContext)
    (hp : p.data ≠ []) (hpc : ∀ c ∈ p.data, isPathChar c = true)
    (hres : resolveValue p context = some (.vstr s))
    (hs : splitFirst oo s.data = none) :
    processInterpolation ("\x7b\x7b\x7b " ++ p ++ " \x7d\x7d\x7d") context = s
    ∧ processInterpolation ("\x7b\x7b " ++ p ++ " \x7d\x7d") context = escapeHtml s
    ∧ ∀ c ∈ (escapeHtml s).data, c ≠ '<' ∧ c ≠ '>' ∧ c ≠ '"' ∧ c ≠ '\'' := by
  have hval : jsStringOrEmpty (resolveValue p context) = s := by rw [hres]; rfl
  refine ⟨?_, ?_, escapeHtml_no_specials s⟩
  · rw [processInterpolation_marker_raw p context hp hpc (by rw [hval]; exact hs),
      hval]
  · rw [processInterpolation_marker_esc p context hp hpc, hval]

/-- Witness for C5 at `s = "a<b"`. -/
theorem interpolation_escaping_witness :
    processInterpolation "\x7b\x7b\x7b p \x7d\x7d\x7d"
        [("p", Value.vstr "a<b")] = "a<b"
    ∧ processInterpolation "\x7b\x7b p \x7d\x7d"
        [("p", Value.vstr "a<b")] = "a&lt;b" := by
  have h := interpolation_escaping "p" "a<b" [("p", Value.vstr "a<b")]
    (by decide) (by decide) rfl (by decide)
  constructor
  · have h1 := h.1
    rw [show ("\x7b\x7b\x7b " ++ "p" ++ " \x7d\x7d\x7d" : String)
      = "\x7b\x7b\x7b p \x7d\x7d\x7d" from rfl] at h1
    exact h1
  · have h2 := h.2.1
    rw [show ("\x7b\x7b " ++ "p" ++ " \x7d\x7d" : String)
      = "\x7b\x7b p \x7d\x7d" from rfl] at h2
    rw [h2]
    rfl

/-- C10.  A path resolving to the explicit `null` renders as the empty
string under both interpolation forms, exactly as an absent
(`undefined`) path does — at the interpolation stage the two are
indistinguishable, even though `resolveValue` itself keeps
`some vnull` and `none` distinct. -/
theorem null_interpolation_empty (p q : String) (context : TemplateContext)
    (hp : p.data ≠ []) (hpc : ∀ c ∈ p.data, isPathChar c = true)
    (hnull : resolveValue p context = some .vnull)
    (hq : q.data ≠ []) (hqc : ∀ c ∈ q.data, isPathChar c = true)
    (hundef : resolveValue q context = none) :
    processInterpolation ("\x7b\x7b " ++ p ++ " \x7d\x7d") context = ""
    ∧ processInterpolation ("\x7b\x7b\x7b " ++ p ++ " \x7d\x7d\x7d") context = ""
    ∧ processInterpolation ("\x7b\x7b " ++ q ++ " \x7d\x7d") context = ""
    ∧ processInterpolation ("\x7b\x7b\x7b " ++ q ++ " \x7d\x7d\x7d") context = "" := by
  have hvp : jsStringOrEmpty (resolveValue p context) = "" := by rw [hnull]; rfl
  have hvq : jsStringOrEmpty (resolveValue q context) = "" := by rw [hundef]; rfl
  refine ⟨?_, ?_, ?_, ?_⟩
  · rw [processInterpolation_marker_esc p context hp hpc, hvp]; rfl
  · rw [processInterpolation_marker_raw p context hp hpc (by rw [hvp]; rfl), hvp]
  · rw [processInterpolation_marker_esc q context hq hqc, hvq]; rfl
  · rw [processInterpolation_marker_raw q context hq hqc (by rw [hvq]; rfl), hvq]

/-- Witness for C10: `p` bound to `null`, `q` absent. -/
theorem null_interpolation_empty_witness :
    processInterpolation "\x7b\x7b p \x7d\x7d" [("p", Value.vnull)] = ""
    ∧ processInterpolation "\x7b\x7b\x7b q \x7d\x7d\x7d" [("p", Value.vnull)] = "" := by
  have h := null_interpolation_empty "p" "q" [("p", Value.vnull)]
    (by decide) (by decide) rfl (by decide) (by decide) rfl
  constructor
  · have h1 := h.1
    rw [show ("\x7b\x7b " ++ "p" ++ " \x7d\x7d" : String)
      = "\x7b\x7b p \x7d\x7d" from rfl] at h1
    exact h1
  · have h4 := h.2.2.2
    rw [show ("\x7b\x7b\x7b " ++ "q" ++ " \x7d\x7d\x7d" : String)
      = "\x7b\x7b\x7b q \x7d\x7d\x7d" from rfl] at h4
    exact h4

/-! ## Evaluating the `#each` matcher on a well-formed block -/

theorem eachOpen_space (y : List Char) :
    "\x7b\x7b#each ".data ++ y = eachOpenTag ++ (' ' :: y) := rfl

/-- ASCII case folding for `String.prototype.toUpperCase` (the Unicode
locale folding is irrelevant to every template in the repository). -/
def asciiUpperChar (c : Char) : Char :=
  if 'a' ≤ c ∧ c ≤ 'z' then Char.ofNat (c.toNat - 32) else c

/-- Models `String(str).toUpperCase()` over the ASCII range. -/
def asciiUpper (s : String) : String :=
  String.mk (s.data.map asciiUpperChar)

/-- The built-in `upper` helper: `(str) => String(str).toUpperCase()`. -/
def upperHelper : HelperFunction :=
  fun args => .ok (asciiUpper (jsStringRaw (args.headD none)))

/-- A helper whose body throws (the `boom` helper of the repository's
own test-suite). -/
def boomHelper : HelperFunction :=
  fun _ => .error "fail"

/-- A registry holding `upper` and `boom` (and nothing named `nope`). -/
def demoHelpers : Helpers :=
  [("upper", upperHelper), ("boom", boomHelper)]

/-- The rendering context of the repository's helper tests. -/
def demoContext : TemplateContext :=
  [("user", .vobj [("name", .vstr "Juan"), ("age", .vnum 30)])]

/-- C1.  `HelpersManager.execute` absorbs every failure into the empty
string instead of throwing: an unregistered name returns `""` (the
test-suite expects `HelperNotFoundException`), a helper body that
throws returns `""` (the tests expect `HelperExecutionException`), and
`parseArgs` passes an unresolvable context path through as `undefined`
with only a console warning (the tests expect
`HelperArgumentException`); an explicit `null` literal stays a valid
argument value. -/
theorem helpersManager_execute_absorbs_failures :
    HelpersManager.execute demoHelpers "nope" "123" demoContext resolveValue = ""
    ∧ HelpersManager.execute demoHelpers "boom" "" demoContext resolveValue = ""
    ∧ parseArgs "user.notExists" demoContext resolveValue = [none]
    ∧ parseArgs "null" demoContext resolveValue = [some Value.vnull] :=
  ⟨rfl, rfl, rfl, rfl⟩

/-- C6.  The helper regex requires the helper name to start immediately
after `\x7b\x7b`, so the spaced marker `{{ upper user.name }}` — the form
used by the engine's own doc comments and test-suite, which expect
`JUAN` — is not recognized by the helper stage (nor, having two
space-separated path tokens, by the interpolation stage) and survives a
full render as literal text.  The unpadded form invokes the helper; an
unregistered name is left as literal text; a bare name with no argument
is never treated as a helper invocation. -/
theorem spaced_helper_marker_not_recognized :
    processHelpers demoHelpers "\x7b\x7b upper user.name \x7d\x7d" demoContext
      = "\x7b\x7b upper user.name \x7d\x7d"
    ∧ SimpleTemplateEngine.render (fun _ => none) 1
        ⟨"views", demoHelpers⟩
        "<p>\x7b\x7b upper user.name \x7d\x7d</p>" demoContext
      = "<p>\x7b\x7b upper user.name \x7d\x7d</p>"
    ∧ processHelpers demoHelpers "\x7b\x7bupper user.name\x7d\x7d" demoContext = "JUAN"
    ∧ processHelpers demoHelpers "\x7b\x7bnope user.name\x7d\x7d" demoContext
      = "\x7b\x7bnope user.name\x7d\x7d"
    ∧ processHelpers demoHelpers "\x7b\x7bupper\x7d\x7d" demoContext = "\x7b\x7bupper\x7d\x7d" :=
  ⟨rfl, rfl, rfl, rfl, rfl⟩

/-! ## Evaluating the partial matcher and the single-marker collect -/

theorem matchPartialAt_exact {name tail : List Char}
    (hname : name ≠ []) (hnc : ∀ c ∈ name, isPartialNameChar c = true) :
    matchPartialAt (partialOpenTag ++ (' ' :: (name ++ (' ' :: (cc ++ tail)))))
      = some (partialOpenTag ++ [' '] ++ name ++ [' '] ++ cc, name, tail) := by
  obtain ⟨nc, n', rfl⟩ := List.exists_cons_of_ne_nil hname
  have hncpn : isPartialNameChar nc = true := hnc nc (by simp)
  have hncws : isWsChar nc = false := isPartialNameChar_not_ws hncpn
  have hspace : isWsChar ' ' = true := by decide
  have hin : ((nc :: n') ++ (' ' :: (cc ++ tail)) : List Char)
      = nc :: (n' ++ (' ' :: (cc ++ tail))) := by simp
  rw [matchPartialAt, dropLit_self_app, hin]
  dsimp only
  have htakews : ((' ' :: nc :: (n' ++ (' ' :: (cc ++ tail))) : List Char).takeWhile isWsChar)
      = [' '] := by
    rw [List.takeWhile_cons, List.takeWhile_cons]
    simp [hspace, hncws]
  have hdropws : ((' ' :: nc :: (n' ++ (' ' :: (cc ++ tail))) : List Char).dropWhile isWsChar)
      = nc :: (n' ++ (' ' :: (cc ++ tail))) := by
    rw [List.dropWhile_cons, List.dropWhile_cons]
    simp [hspace, hncws]
  rw [htakews, hdropws]
  have hspHead : ∀ c : Char, (' ' :: (cc ++ tail) : List Char).head? = some c →
      isPartialNameChar c = false := by
    rintro c hc
    cases hc
    decide
  have htaken : ((nc :: (n' ++ (' ' :: (cc ++ tail))) : List Char).takeWhile isPartialNameChar)
      = nc :: n' := by
    rw [← hin, takeWhile_app_all _ hnc, takeWhile_head_false hspHead]
    simp
  have hdropn : ((nc :: (n' ++ (' ' :: (cc ++ tail))) : List Char).dropWhile isPartialNameChar)
      = ' ' :: (cc ++ tail) := by
    rw [← hin, dropWhile_app_all _ hnc, dropWhile_head_false hspHead]
  rw [htaken]
  simp only [List.isEmpty_cons, Bool.false_eq_true, if_false, hdropn]
  have hccHeadWs : ∀ c : Char, (cc ++ tail : List Char).head? = some c →
      isWsChar c = false := by
    rintro c hc
    cases hc
    decide
  rw [List.takeWhile_cons, List.dropWhile_cons]
  simp only [hspace, if_true]
  rw [takeWhile_head_false hccHeadWs, dropWhile_head_false hccHeadWs,
    dropLit_self_app]

theorem dropLit_oo_ne {c : Char} {s : List Char} (h : c ≠ '\x7b') :
    dropLit oo (c :: s) = none := by
  rw [show oo = '\x7b' :: ['\x7b'] from rfl]
  exact dropLit_head_ne h

theorem collectPartialsAux_nilList : ∀ m, collectPartialsAux m [] = [] := by
  intro m
  cases m <;> rfl

theorem collectPartialsAux_step_none {n : Nat} {s : List Char}
    (hs : s ≠ []) (h : matchPartialAt s = none) :
    collectPartialsAux (n + 1) s = collectPartialsAux n s.tail := by
  cases s with
  | nil => exact absurd rfl hs
  | cons c cs => simp only [collectPartialsAux, h, List.tail_cons]

theorem collectPartialsAux_step_some {n : Nat} {s mt nm rest : List Char}
    (hs : s ≠ []) (h : matchPartialAt s = some (mt, nm, rest)) :
    collectPartialsAux (n + 1) s = (mt, nm) :: collectPartialsAux n rest := by
  cases s with
  | nil => exact absurd rfl hs
  | cons c cs => simp only [collectPartialsAux, h]

theorem collectPartialsAux_single_y : ∀ m, collectPartialsAux m ['y'] = [] := by
  intro m
  cases m with
  | zero => rfl
  | succ m' =>
      rw [collectPartialsAux_step_none (by simp)
        (matchPartialAt_none (dropLit_oo_ne (by decide)))]
      exact collectPartialsAux_nilList m'

theorem partialOpenTag_ne_nil : partialOpenTag ≠ [] := by decide

theorem collect_single_marker {name : List Char}
    (hname : name ≠ []) (hnc : ∀ c ∈ name, isPartialNameChar c = true) :
    collectPartials ('x' :: (partialOpenTag ++ (' ' :: (name ++ (' ' :: (cc ++ ['y']))))))
      = [(partialOpenTag ++ [' '] ++ name ++ [' '] ++ cc, name)] := by
  have hrestne : (partialOpenTag ++ (' ' :: (name ++ (' ' :: (cc ++ ['y'])))) : List Char) ≠ [] :=
    append_ne_nil_left partialOpenTag_ne_nil
  rw [collectPartials, List.length_cons,
    collectPartialsAux_step_none (by simp)
      (matchPartialAt_none (dropLit_oo_ne (by decide))),
    List.tail_cons]
  have hlen : (partialOpenTag ++ (' ' :: (name ++ (' ' :: (cc ++ ['y'])))) : List Char).length
      = (name.length + 7) + 1 := by
    simp [List.length_append, show partialOpenTag.length = 3 from rfl,
      show cc.length = 2 from rfl]
    omega
  rw [hlen,
    collectPartialsAux_step_some hrestne (matchPartialAt_exact hname hnc),
    collectPartialsAux_single_y]

theorem strData_mk (l : List Char) : (String.mk l).data = l := rfl

/-- A missing partial renders its marker as the empty string while the
surrounding text survives. -/
theorem processPartials_missing_single {fs : FileSystem} {dir : String}
    {renderSub : String → String} {name : String}
    (hname : name.data ≠ []) (hnc : ∀ c ∈ name.data, isPartialNameChar c = true)
    (hfs : fs (partialPath dir name) = none) :
    processPartialsWith fs dir renderSub ("x\x7b\x7b> " ++ name ++ " \x7d\x7dy") = "xy" := by
  have hdata : ("x\x7b\x7b> " ++ name ++ " \x7d\x7dy").data
      = 'x' :: (partialOpenTag ++ (' ' :: (name.data ++ (' ' :: (cc ++ ['y']))))) := by
    simp only [strData_append, List.append_assoc]
    rfl
  rw [processPartialsWith, hdata, collect_single_marker hname hnc]
  simp only [List.foldl_cons, List.foldl_nil]
  rw [strMk_data, hfs]
  have hsplit : splitFirst (partialOpenTag ++ [' '] ++ name.data ++ [' '] ++ cc)
      (("x\x7b\x7b> " ++ name ++ " \x7d\x7dy").data) = some (['x'], ['y']) := by
    have h1 : (("x\x7b\x7b> " ++ name ++ " \x7d\x7dy").data : List Char)
        = ['x'] ++ ('\x7b' :: (['\x7b', '>', ' '] ++ (name.data ++ (' ' :: cc)))) ++ ['y'] := by
      rw [hdata]
      simp [partialOpenTag, cc, List.append_assoc]
    have h2 : (partialOpenTag ++ [' '] ++ name.data ++ [' '] ++ cc : List Char)
        = '\x7b' :: (['\x7b', '>', ' '] ++ (name.data ++ (' ' :: cc))) := by
      simp [partialOpenTag, cc, List.append_assoc]
    rw [h1, h2]
    exact splitFirst_app (by
      intro c hc
      simp only [List.mem_cons, List.not_mem_nil, or_false] at hc
      subst hc
      decide)
  rw [replaceFirst, strData_mk, hsplit]
  rfl

/-- C7.  A view or layout whose backing file cannot be read makes
`RaptorEngine.render` fail with the file-not-exists error surfaced to
the caller, while a partial whose file cannot be loaded raises nothing:
its marker is replaced by the empty string and rendering continues. -/
theorem view_layout_hard_partial_soft :
    (∀ (fs : FileSystem) (fuel : Nat) (eng : RaptorEngine) (view : String)
        (params : TemplateContext) (layoutName : String),
      lookupFirst eng.cacheTemplates
          (eng.viewsDirectory ++ "/layouts/" ++ layoutName ++ ".html") = none →
      fs (eng.viewsDirectory ++ "/layouts/" ++ layoutName ++ ".html") = none →
      RaptorEngine.render fs fuel eng view params (some layoutName)
        = (.error (.fileNotExists ("View file not found: "
             ++ (eng.viewsDirectory ++ "/layouts/" ++ layoutName ++ ".html"))),
           eng, [eng.viewsDirectory ++ "/layouts/" ++ layoutName ++ ".html"]))
    ∧ (∀ (fs : FileSystem) (fuel : Nat) (eng : RaptorEngine) (view : String)
        (params : TemplateContext) (layoutName lc : String),
      lookupFirst eng.cacheTemplates
          (eng.viewsDirectory ++ "/layouts/" ++ layoutName ++ ".html") = none →
      fs (eng.viewsDirectory ++ "/layouts/" ++ layoutName ++ ".html") = some lc →
      lookupFirst ((eng.viewsDirectory ++ "/layouts/" ++ layoutName ++ ".html", lc)
          :: eng.cacheTemplates) (eng.viewsDirectory ++ "/" ++ view ++ ".html") = none →
      fs (eng.viewsDirectory ++ "/" ++ view ++ ".html") = none →
      (RaptorEngine.render fs fuel eng view params (some layoutName)).1
        = .error (.fileNotExists ("View file not found: "
             ++ (eng.viewsDirectory ++ "/" ++ view ++ ".html"))))
    ∧ (∀ (fuel : Nat) (fs : FileSystem) (e : SimpleTemplateEngine)
        (name : String) (context : TemplateContext),
      name.data ≠ [] → (∀ c ∈ name.data, isPartialNameChar c = true) →
      fs (partialPath e.viewsDirectory name) = none →
      SimpleTemplateEngine.render fs fuel e
        ("x\x7b\x7b> " ++ name ++ " \x7d\x7dy") context = "xy") := by
  refine ⟨?_, ?_, ?_⟩
  · intro fs fuel eng view params layoutName hmiss hread
    simp only [RaptorEngine.render, RaptorEngine.renderLayout,
      RaptorEngine.renderFile, Option.getD, hmiss, hread]
  · intro fs fuel eng view params layoutName lc hmiss hread hvmiss hvread
    simp only [RaptorEngine.render, RaptorEngine.renderLayout,
      RaptorEngine.renderView, RaptorEngine.renderFile, Option.getD, hmiss, hread]
    simp only [hvmiss, hvread]
  · intro fuel fs e name context hname hnc hfs
    have hxy : splitFirst oo ("xy" : String).data = none := by decide
    cases fuel with
    | zero =>
        rw [show SimpleTemplateEngine.render fs 0 e
            ("x\x7b\x7b> " ++ name ++ " \x7d\x7dy") context
          = pipelineStages e fs (fun _ => "")
              ("x\x7b\x7b> " ++ name ++ " \x7d\x7dy") context from rfl]
        rw [pipelineStages, processPartials_missing_single hname hnc hfs,
          processEach_id hxy, processIf_id hxy, processHelpers_id hxy,
          processInterpolation_id hxy]
    | succ m =>
        rw [show SimpleTemplateEngine.render fs (m + 1) e
            ("x\x7b\x7b> " ++ name ++ " \x7d\x7dy") context
          = pipelineStages e fs
              (fun content => SimpleTemplateEngine.render fs m e content context)
              ("x\x7b\x7b> " ++ name ++ " \x7d\x7dy") context from rfl]
        rw [pipelineStages, processPartials_missing_single hname hnc hfs,
          processEach_id hxy, processIf_id hxy, processHelpers_id hxy,
          processInterpolation_id hxy]

/-- Witness for C7: a missing partial renders softly; a missing layout
raises the file-not-exists error. -/
theorem view_layout_hard_partial_soft_witness :
    SimpleTemplateEngine.render (fun _ => none) 1
        { viewsDirectory := "views", helpers := [] }
        "x\x7b\x7b> notfound \x7d\x7dy" [] = "xy"
    ∧ (RaptorEngine.render (fun _ => none) 1 (RaptorEngine.make "views" [])
        "plain" [] (some "missing")).1
      = .error (.fileNotExists "View file not found: views/layouts/missing.html") := by
  constructor
  · have h := view_layout_hard_partial_soft.2.2 1 (fun _ => none)
      { viewsDirectory := "views", helpers := [] } "notfound" []
      (by decide) (by decide) rfl
    rw [show ("x\x7b\x7b> " ++ "notfound" ++ " \x7d\x7dy" : String)
      = "x\x7b\x7b> notfound \x7d\x7dy" from rfl] at h
    exact h
  · have h := view_layout_hard_partial_soft.1 (fun _ => none) 1
      (RaptorEngine.make "views" []) "plain" [] "missing" rfl rfl
    rw [h]
    rfl

/-! ## Layout composition and caching -/

/-- The filesystem of the repository's `RaptorEngine` test fixture. -/
def demoFs : FileSystem := fun p =>
  if p = "views/plain.html" then some "<p>Plain</p>"
  else if p = "views/layouts/alt.html" then some "<section>[[CONTENT]]</section>"
  else none

/-- The test engine: views root `views`, content marker `[[CONTENT]]`. -/
def demoEngine : RaptorEngine :=
  (RaptorEngine.make "views" []).setContentMarker "[[CONTENT]]"

/-- A fixture whose view body contains the `$&` substitution pattern. -/
def dollarFs : FileSystem := fun p =>
  if p = "views/dollar.html" then some "a$&b"
  else if p = "views/layouts/alt.html" then some "<section>[[CONTENT]]</section>"
  else none

/-- A replacement string without `$` passes through `GetSubstitution`
verbatim. -/
theorem getSubstitution_no_dollar {matched pre post : List Char} :
    ∀ v : List Char, '$' ∉ v → getSubstitution matched pre post v = v := by
  intro v
  induction v with
  | nil => intro _; rfl
  | cons c rest ih =>
      intro h
      have hc : c ≠ '$' := fun e => h (by simp [e])
      cases rest with
      | nil => rfl
      | cons d rest' =>
          simp only [getSubstitution, if_neg hc]
          rw [ih (fun hm => h (List.mem_cons_of_mem c hm))]

/-- C8 counterexample.  The splice is `String.prototype.replace` with a
string replacement, so JavaScript's `GetSubstitution` expands
`$`-patterns in the rendered view: a view rendering to `a$&b` is
spliced as `a[[CONTENT]]b` (the `$&` re-inserts the matched marker),
not verbatim as the claim states. -/
theorem layout_dollar_substitution_counterexample :
    (RaptorEngine.render dollarFs 1 demoEngine "dollar" [] (some "alt")).1
      = .ok "<section>a[[CONTENT]]b</section>"
    ∧ ("<section>a[[CONTENT]]b</section>" : String) ≠ "<section>a$&b</section>" :=
  ⟨rfl, by decide⟩

/-- C8 (amended).  `RaptorEngine.render` returns the rendered layout
with only the first occurrence of the content marker (`replaceFirst`
splits at the first occurrence, as the decomposition and minimality
conjuncts state) replaced by the rendered view *as expanded by
JavaScript's `GetSubstitution`*; a rendered view free of `$` is spliced
verbatim; when the marker does not occur, the rendered layout is
returned unchanged and no error is raised; the `plain`-in-`alt` example
yields exactly `<section><p>Plain</p></section>`. -/
theorem layout_marker_splice (fs : FileSystem) (fuel : Nat) (eng : RaptorEngine)
    (view : String) (params : TemplateContext) (layoutName lc vc : String)
    (hLmiss : lookupFirst eng.cacheTemplates
      (eng.viewsDirectory ++ "/layouts/" ++ layoutName ++ ".html") = none)
    (hLread : fs (eng.viewsDirectory ++ "/layouts/" ++ layoutName ++ ".html") = some lc)
    (hVmiss : lookupFirst
      ((eng.viewsDirectory ++ "/layouts/" ++ layoutName ++ ".html", lc)
        :: eng.cacheTemplates)
      (eng.viewsDirectory ++ "/" ++ view ++ ".html") = none)
    (hVread : fs (eng.viewsDirectory ++ "/" ++ view ++ ".html") = some vc) :
    (RaptorEngine.render fs fuel eng view params (some layoutName)).1
      = .ok (replaceFirst (eng.templateEngine.render fs fuel lc [])
              eng.contentMarker
              (eng.templateEngine.render fs fuel vc params))
    ∧ (∀ L marker V : String, ∀ P S : List Char,
        splitFirst marker.data L.data = some (P, S) →
        replaceFirst L marker V
          = String.mk (P ++ getSubstitution marker.data P S V.data ++ S)
        ∧ L.data = P ++ marker.data ++ S
        ∧ (∀ P' S' : List Char, L.data = P' ++ marker.data ++ S' →
            P.length ≤ P'.length)
        ∧ ('$' ∉ V.data → replaceFirst L marker V = String.mk (P ++ V.data ++ S)))
    ∧ (∀ L marker V : String, splitFirst marker.data L.data = none →
        replaceFirst L marker V = L)
    ∧ (RaptorEngine.render demoFs 1 demoEngine "plain" [] (some "alt")).1
      = .ok "<section><p>Plain</p></section>" := by
  refine ⟨?_, ?_, ?_, rfl⟩
  · simp only [RaptorEngine.render, RaptorEngine.renderLayout,
      RaptorEngine.renderView, RaptorEngine.renderFile, Option.getD,
      hLmiss, hLread]
    simp only [hVmiss, hVread]
  · intro L marker V P S h
    refine ⟨by rw [replaceFirst, h], splitFirst_sound h, splitFirst_min h, ?_⟩
    intro hd
    rw [replaceFirst, h]
    dsimp only
    rw [getSubstitution_no_dollar V.data hd]
  · intro L marker V h
    rw [replaceFirst, h]

/-- Witness for C8 at the test fixture. -/
theorem layout_marker_splice_witness :
    (RaptorEngine.render demoFs 1 demoEngine "plain" [] (some "alt")).1
      = .ok "<section><p>Plain</p></section>" :=
  (layout_marker_splice demoFs 1 demoEngine "plain" []
    "alt" "<section>[[CONTENT]]</section>" "<p>Plain</p>"
    rfl rfl rfl rfl).2.2.2

/-- C9.  `RaptorEngine.renderFile` reads a path's backing file at most
once per instance: the first successful render reads the file once and
caches its raw text; any later render finds the cache entry, touches
the filesystem not at all (empty read trace) and re-runs the full
template pipeline over the unchanged cached raw text. -/
theorem template_cache_single_read (fs : FileSystem) (fuel : Nat)
    (eng : RaptorEngine) (filePath : String)
    (params params2 : TemplateContext) (content : String)
    (hmiss : lookupFirst eng.cacheTemplates filePath = none)
    (hread : fs filePath = some content) :
    RaptorEngine.renderFile fs fuel eng filePath params
      = (.ok (eng.templateEngine.render fs fuel content params),
         { eng with cacheTemplates := (filePath, content) :: eng.cacheTemplates },
         [filePath])
    ∧ RaptorEngine.renderFile fs fuel
        { eng with cacheTemplates := (filePath, content) :: eng.cacheTemplates }
        filePath params2
      = (.ok (eng.templateEngine.render fs fuel content params2),
         { eng with cacheTemplates := (filePath, content) :: eng.cacheTemplates },
         [])
    ∧ (∀ (e : RaptorEngine) (cached : String),
        lookupFirst e.cacheTemplates filePath = some cached →
        RaptorEngine.renderFile fs fuel e filePath params2
          = (.ok (e.templateEngine.render fs fuel cached params2), e, [])) := by
  refine ⟨?_, ?_, ?_⟩
  · rw [RaptorEngine.renderFile, hmiss, hread]
  · rw [RaptorEngine.renderFile]
    simp [lookupFirst]
  · intro e cached hc
    rw [RaptorEngine.renderFile, hc]

/-- Witness for C9: re-rendering the cached `plain.html` performs no
filesystem read. -/
theorem template_cache_single_read_witness :
    RaptorEngine.renderFile demoFs 1
      { demoEngine with cacheTemplates := [("views/plain.html", "<p>Plain</p>")] }
      "views/plain.html" []
    = (.ok "<p>Plain</p>",
       { demoEngine with cacheTemplates := [("views/plain.html", "<p>Plain</p>")] },
       []) := by
  have h := (template_cache_single_read demoFs 1 demoEngine "views/plain.html"
    [] [] "<p>Plain</p>" rfl rfl).2.1
  exact h

end Raptor
